import Mathlib

/-!
Verification of the batch transcription Executor
(`church_transcribe_batch.ps1`) of the church-transcriber repository.

The Executor is a PowerShell script.  We shallowly embed it in Lean:

* text is modelled as `List Char` (PowerShell/.NET strings);
* the .NET regex operations used by the script (`Regex.Replace` with a
  pattern of the shape `CLASS+`, `Regex.Split` on `(?<=[.!?])\s+`,
  `Regex.Match` with the two fixed-width date patterns, `Regex.IsMatch`
  with the anchored BeforeDate pattern) are modelled by direct recursive
  functions on character lists;
* the filesystem and the two external engines (ffmpeg, whisper) are an
  environment: for each file the environment records whether `raw.txt`
  already exists, the exit codes the engines would return, and whether
  the recognition engine produced its text output;
* the observable behaviour of a run (Write-Host lines, structured
  progress lines, engine invocations, pause-flag polls, sleeps) is a
  trace of `Event`s.
-/

namespace ChurchTranscriber

/-- Whitespace class, modelling the .NET regex class `\s`,
`[string]::IsNullOrWhiteSpace` and argument-less `String.Trim()`
(ASCII whitespace range). -/
def isWsChar (c : Char) : Bool :=
  c == ' ' || c == '\t' || c == '\n' || c == '\r' || c == '\x0b' || c == '\x0c'

/-- Model of `[string]::IsNullOrWhiteSpace` on a character list. -/
def wsEmpty (l : List Char) : Bool := l.all isWsChar

/-- Model of `[string]::IsNullOrWhiteSpace` on a `String`. -/
def wsStr (s : String) : Bool := wsEmpty s.toList

/-- Model of .NET `String.Trim(c)` / `String.Trim()`: drop the characters
satisfying `p` from both ends. -/
def trimWhile (p : Char → Bool) (l : List Char) : List Char :=
  ((l.dropWhile p).reverse.dropWhile p).reverse

/-- Trim of ASCII whitespace, modelling argument-less `String.Trim()`. -/
def trimWs (l : List Char) : List Char := trimWhile isWsChar l

/-- Model of .NET `Regex.Replace` with a pattern of the form `CLASS+` and a
one-character replacement string: every maximal run of characters of the
class `p` becomes the single character `r`.  The boolean argument records
whether the previous character belonged to the current run. -/
def replaceRunsGo (p : Char → Bool) (r : Char) : Bool → List Char → List Char
  | _, [] => []
  | inRun, c :: cs =>
    if p c then
      if inRun then replaceRunsGo p r true cs
      else r :: replaceRunsGo p r true cs
    else c :: replaceRunsGo p r false cs

/-- Replace every maximal run of `p`-characters by the single character `r`. -/
def replaceRuns (p : Char → Bool) (r : Char) (l : List Char) : List Char :=
  replaceRunsGo p r false l

/-- The character class `[a-z0-9]` of the Get-Slug regexes, by code point
(97-122 are `a`-`z`, 48-57 are `0`-`9`). -/
def isLowerAlnum (c : Char) : Bool :=
  (97 ≤ c.toNat && c.toNat ≤ 122) || (48 ≤ c.toNat && c.toNat ≤ 57)

/-- Model of `String.ToLowerInvariant` (ASCII range: `A`-`Z`, code points
65-90, map to `a`-`z` by adding 32; every other character is unchanged). -/
def lowerChar (c : Char) : Char :=
  if 65 ≤ c.toNat && c.toNat ≤ 90 then Char.ofNat (c.toNat + 32) else c

/-- Embedding of `Get-Slug` (part_001 lines 66-78): fallback `"service"`
for whitespace input, lower-case, collapse runs of `[^a-z0-9]` to `-`,
collapse runs of `-`, trim `-` from both ends, fallback again if empty,
and cap at 96 characters (trimming `-` again after the cut). -/
def getSlugList (l : List Char) : List Char :=
  if wsEmpty l then "service".toList
  else
    let s1 := l.map lowerChar
    let s2 := replaceRuns (fun c => !(isLowerAlnum c)) '-' s1
    let s3 := replaceRuns (fun c => c == '-') '-' s2
    let s4 := trimWhile (fun c => c == '-') s3
    let s5 := if wsEmpty s4 then "service".toList else s4
    if 96 < s5.length then trimWhile (fun c => c == '-') (s5.take 96) else s5

/-- The regex digit class `\d` (ASCII digits, as matched here). -/
def isDigitChar (c : Char) : Bool := '0' ≤ c && c ≤ '9'

/-- Attempt to match the regex `(20\d{2})[-_](\d{2})[-_](\d{2})` at the head
of the list; on success return the bucket formatted `"y-m-d"` from the three
capture groups (part_001 lines 85-88). -/
def matchSepDateAt : List Char → Option (List Char)
  | y1 :: y2 :: y3 :: y4 :: s1 :: m1 :: m2 :: s2 :: d1 :: d2 :: _ =>
    if y1 == '2' && y2 == '0' && isDigitChar y3 && isDigitChar y4
        && (s1 == '-' || s1 == '_') && isDigitChar m1 && isDigitChar m2
        && (s2 == '-' || s2 == '_') && isDigitChar d1 && isDigitChar d2 then
      some [y1, y2, y3, y4, '-', m1, m2, '-', d1, d2]
    else none
  | _ => none

/-- Attempt to match the regex `(20\d{2})(\d{2})(\d{2})` at the head of the
list; on success return the bucket formatted `"y-m-d"` (part_001 lines 90-93). -/
def matchContigDateAt : List Char → Option (List Char)
  | y1 :: y2 :: y3 :: y4 :: m1 :: m2 :: d1 :: d2 :: _ =>
    if y1 == '2' && y2 == '0' && isDigitChar y3 && isDigitChar y4
        && isDigitChar m1 && isDigitChar m2 && isDigitChar d1 && isDigitChar d2 then
      some [y1, y2, y3, y4, '-', m1, m2, '-', d1, d2]
    else none
  | _ => none

/-- Model of `[regex]::Match`: try the fixed-width matcher `m` at every
position, left to right, returning the leftmost success. -/
def findFirstMatch (m : List Char → Option (List Char)) : List Char → Option (List Char)
  | [] => m []
  | c :: rest =>
    match m (c :: rest) with
    | some r => some r
    | none => findFirstMatch m rest

/-- Embedding of `Get-DateBucket` (part_001 lines 80-96): first the
separated pattern, then the contiguous pattern, else the file's
last-write date already formatted `yyyy-MM-dd` by the environment. -/
def getDateBucket (baseName : List Char) (mtimeDate : List Char) : List Char :=
  match findFirstMatch matchSepDateAt baseName with
  | some b => b
  | none =>
    match findFirstMatch matchContigDateAt baseName with
    | some b => b
    | none => mtimeDate

/-- Lexicographic (by code point) strict order on character lists, modelling
the PowerShell string comparison `-gt` as used on the digits-and-dashes
date-bucket strings (where culture and case play no role). -/
def charsLt : List Char → List Char → Bool
  | [], [] => false
  | [], _ :: _ => true
  | _ :: _, [] => false
  | a :: as, b :: bs =>
    if a.toNat < b.toNat then true
    else if b.toNat < a.toNat then false
    else charsLt as bs

/-- Model of `$a -gt $b` on strings. -/
def strGtS (a b : String) : Bool := charsLt b.toList a.toList

/-- Sentence terminators of the reflow split pattern `(?<=[.!?])\s+`. -/
def isTermChar (c : Char) : Bool := c == '.' || c == '!' || c == '?'

/-- Model of `[regex]::Split(flat, "(?<=[.!?])\s+")`: walk the characters,
and whenever a whitespace character immediately follows a terminator, cut
the current piece and consume the whole whitespace run.  `skipping` is true
while inside the whitespace run of a cut; `prevTerm` records whether the
previously consumed character was a terminator; `cur` is the current piece,
reversed. -/
def splitSentGo (skipping prevTerm : Bool) (cur : List Char) : List Char → List (List Char)
  | [] => [cur.reverse]
  | c :: rest =>
    if skipping then
      if isWsChar c then splitSentGo true false [] rest
      else splitSentGo false (isTermChar c) [c] rest
    else if prevTerm && isWsChar c then
      cur.reverse :: splitSentGo true false [] rest
    else splitSentGo false (isTermChar c) (c :: cur) rest

/-- Split a string into sentence pieces at `(?<=[.!?])\s+` boundaries. -/
def splitSentences (l : List Char) : List (List Char) :=
  splitSentGo false false [] l

/-- Embedding of the paragraph-packing loop of `Build-CleanMarkdown`
(part_001 lines 108-128): skip whitespace pieces, append each sentence to
the buffer (space-separated), flush the buffer as a paragraph once its
length reaches 700, and flush any non-whitespace leftover at the end. -/
def packGo : List (List Char) → List Char → List (List Char) → List (List Char)
  | [], buf, acc => if wsEmpty buf then acc else acc ++ [trimWs buf]
  | s :: rest, buf, acc =>
    if wsEmpty s then packGo rest buf acc
    else
      let buf2 := if wsEmpty buf then trimWs s else buf ++ ' ' :: trimWs s
      if 700 ≤ buf2.length then packGo rest [] (acc ++ [trimWs buf2])
      else packGo rest buf2 acc

/-- Whitespace normalisation of `Build-CleanMarkdown` (part_001 line 105):
collapse every whitespace run to a single space, then trim. -/
def flattenWs (raw : List Char) : List Char :=
  trimWs (replaceRuns isWsChar ' ' raw)

/-- The sentence list the reflow works on (part_001 lines 105-106). -/
def sentencesOf (raw : List Char) : List (List Char) :=
  splitSentences (flattenWs raw)

/-- The paragraphs of the reflowed clean document (part_001 lines 105-128). -/
def buildCleanParagraphs (raw : List Char) : List (List Char) :=
  packGo (sentencesOf raw) [] []

/-! ## The Executor run model -/

/-- Launch parameters of the Executor (the script's `param` block restricted
to what the behaviour under verification depends on), together with the
environment facts the preamble checks: whether the input folder, ffmpeg,
the whisper executable and the model file are present. -/
structure ExecConfig where
  force : Bool
  beforeDate : String
  fastScan : Bool
  keepAudio : Bool
  pauseFlagFile : String
  limit : Nat
  inputFolderExists : Bool
  ffmpegFound : Bool
  whisperFound : Bool
  modelFound : Bool

/-- A media file as seen by the scan: its full path, its base name
(extension removed), and its last-write time already formatted
`yyyy-MM-dd` as `Get-DateBucket` would format it. -/
structure MediaFile where
  fullName : String
  baseName : String
  lastWriteDate : String
deriving DecidableEq, Repr

/-- Per-file behaviour of the external world: whether `raw.txt` already
exists at the file's resolved output path, the exit codes ffmpeg and
whisper would return, whether whisper produced its `.txt` and `.json`
outputs, and how many times the pause flag is observed present at each of
the three gate call sites of this file's iteration. -/
structure FileEnv where
  rawExists : Bool
  ffmpegExit : Int
  whisperExit : Int
  txtProduced : Bool
  jsonProduced : Bool
  pausePolls1 : Nat
  pausePolls2 : Nat
  pausePolls3 : Nat
deriving DecidableEq, Repr

/-- Observable events of a run: free-form `Write-Host` lines, structured
progress lines (kept with their fields), external engine invocations,
pause-flag existence polls, and sleeps (seconds). -/
inductive Event where
  | log (line : String)
  | progress (done total : Nat) (status source : String)
  | ffmpegCall (source audio : String)
  | whisperCall (audio : String)
  | poll (flagPresent : Bool)
  | sleep (seconds : Nat)
deriving DecidableEq, Repr

/-- The first pause notice of `Wait-IfPaused` (part_001 lines 31-35). -/
def pauseNoticeLine (ctx : String) : String :=
  "[pause] Pause requested. Waiting to resume"
    ++ (if wsStr ctx then "" else " (" ++ ctx ++ ")")

/-- The second pause line of `Wait-IfPaused` (part_001 line 36). -/
def pauseFlagLine (path : String) : String :=
  "[pause] Remove pause flag to continue: " ++ path

/-- The resume notice of `Wait-IfPaused` (part_001 line 43). -/
def resumeNoticeLine : String := "[pause] Resume detected. Continuing..."

/-- The `while (Test-Path ...)` loop of `Wait-IfPaused` (part_001 lines
28-44), driven by the number `n` of polls that still observe the flag
before the first poll that observes it absent.  `announced` records
whether the pause notice was already printed. -/
def gateLoop (path ctx : String) : Nat → Bool → List Event
  | 0, announced =>
    Event.poll false :: (if announced then [Event.log resumeNoticeLine] else [])
  | n + 1, announced =>
    Event.poll true
      :: (if announced then [] else [Event.log (pauseNoticeLine ctx), Event.log (pauseFlagLine path)])
      ++ Event.sleep 2 :: gateLoop path ctx n true

/-- Embedding of `Wait-IfPaused` (part_001 lines 20-45): no-op when the
pause-flag path is null/whitespace, otherwise the polling loop. -/
def gateEvents (path ctx : String) (n : Nat) : List Event :=
  if wsStr path then [] else gateLoop path ctx n false

/-- Embedding of `Emit-Progress` (part_001 lines 47-64): the exact stdout
line, with the status and source fields omitted when null/whitespace. -/
def renderProgress (done total : Nat) (status source : String) : String :=
  let base := "[progress] done=" ++ toString done ++ " total=" ++ toString total
  let withStatus := if wsStr status then base else base ++ (" status=" ++ status)
  if wsStr source then withStatus else withStatus ++ (" source=" ++ source)

/-- Model of `Join-Path`. -/
def joinPath (parent child : String) : String := parent ++ "\\" ++ child

/-- Per-file result record as added to `$results`
(part_001 lines 268, 294, 307, 322, 373). -/
structure FileResult where
  status : String
  source : String
  output : String
  reason : Option String
deriving DecidableEq, Repr

/-- Everything one iteration of the `foreach ($file in $mediaFiles)` loop
produces: its events, its `$results` record, and whether `raw.txt` exists
at the file's resolved output path after the iteration. -/
structure FileOutcome where
  events : List Event
  result : FileResult
  rawAfter : Bool
deriving Repr

/-- Embedding of one iteration of the file loop (part_001 lines 259-376).
`done` is the value of `$processed` before the iteration; every branch
increments it and emits exactly one progress line with `done + 1`.
`raw.txt` is created only by the `Move-Item` that runs after both engines
exited zero and only when whisper produced `audio-source.txt`
(part_001 lines 328-333). -/
def processFile (cfg : ExecConfig) (outputRoot : String) (done total : Nat)
    (f : MediaFile) (env : FileEnv) : FileOutcome :=
  let gate1 := gateEvents cfg.pauseFlagFile "before next file" env.pausePolls1
  let header := [Event.log "", Event.log ("=== " ++ f.fullName ++ " ===")]
  let bucket := String.mk (getDateBucket f.baseName.toList f.lastWriteDate.toList)
  if !(wsStr cfg.beforeDate) && strGtS bucket cfg.beforeDate then
    { events := gate1 ++ header
        ++ [Event.log ("[skip] date " ++ bucket ++ " is after cutoff " ++ cfg.beforeDate),
            Event.progress (done + 1) total "skipped-date" f.fullName]
      result := ⟨"skipped-date", f.fullName, "", none⟩
      rawAfter := env.rawExists }
  else
    let slug := String.mk (getSlugList f.baseName.toList)
    let serviceDir := joinPath (joinPath outputRoot bucket) slug
    if env.rawExists && !cfg.force then
      { events := gate1 ++ header
          ++ [Event.log "[skip] raw.txt exists",
              Event.progress (done + 1) total "skipped" f.fullName]
        result := ⟨"skipped", f.fullName, serviceDir, none⟩
        rawAfter := env.rawExists }
    else
      let audioPath := joinPath serviceDir "audio-source.wav"
      let gate2 := gateEvents cfg.pauseFlagFile "before ffmpeg" env.pausePolls2
      if env.ffmpegExit != 0 then
        { events := gate1 ++ header ++ gate2
            ++ [Event.ffmpegCall f.fullName audioPath,
                Event.log ("ffmpeg failed: " ++ f.fullName),
                Event.progress (done + 1) total "error-ffmpeg" f.fullName]
          result := ⟨"error", f.fullName, serviceDir, some "ffmpeg"⟩
          rawAfter := env.rawExists }
      else
        let gate3 := gateEvents cfg.pauseFlagFile "before whisper" env.pausePolls3
        if env.whisperExit != 0 then
          { events := gate1 ++ header ++ gate2
              ++ [Event.ffmpegCall f.fullName audioPath]
              ++ gate3
              ++ [Event.whisperCall audioPath,
                  Event.log ("whisper failed: " ++ f.fullName),
                  Event.progress (done + 1) total "error-whisper" f.fullName]
            result := ⟨"error", f.fullName, serviceDir, some "whisper"⟩
            rawAfter := env.rawExists }
        else
          { events := gate1 ++ header ++ gate2
              ++ [Event.ffmpegCall f.fullName audioPath]
              ++ gate3
              ++ [Event.whisperCall audioPath,
                  Event.progress (done + 1) total "ok" f.fullName]
            result := ⟨"ok", f.fullName, serviceDir, none⟩
            rawAfter := if env.txtProduced then true else env.rawExists }

/-- The file loop (part_001 lines 259-376): every branch of the body adds
one record and increments `$processed` by one, so the counter threaded here
increases by exactly one per file. -/
def runFiles (cfg : ExecConfig) (outputRoot : String) (total : Nat) :
    Nat → List (MediaFile × FileEnv) → List FileOutcome
  | _, [] => []
  | done, (f, env) :: rest =>
    processFile cfg outputRoot done total f env
      :: runFiles cfg outputRoot total (done + 1) rest

/-- The candidate list after the optional `-Limit` truncation
(part_001 lines 231-233).  The scan itself (extension filter, sort by full
path) happens in the environment; `files` is its result. -/
def candidatesOf (cfg : ExecConfig) (files : List (MediaFile × FileEnv)) :
    List (MediaFile × FileEnv) :=
  if 0 < cfg.limit then files.take cfg.limit else files

/-- Result of running the whole script: either a `throw` from the preamble
(with the events emitted before it), or a finished run with its events,
its `$results` list and its process exit code. -/
inductive ScriptResult where
  | thrown (events : List Event) (msg : String)
  | finished (events : List Event) (results : List FileResult) (exitCode : Nat)
deriving Repr

/-- The `BeforeDate` validation regex `^20\d{2}-\d{2}-\d{2}$`
(part_001 line 203), an anchored exact match. -/
def matchBeforeDate (l : List Char) : Bool :=
  match l with
  | [y1, y2, y3, y4, h1, m1, m2, h2, d1, d2] =>
    y1 == '2' && y2 == '0' && isDigitChar y3 && isDigitChar y4
      && h1 == '-' && isDigitChar m1 && isDigitChar m2
      && h2 == '-' && isDigitChar d1 && isDigitChar d2
  | _ => false

/-- Embedding of the whole script (part_001 lines 180-402): the preamble
throws (in source order) for a missing input folder, missing ffmpeg,
missing whisper executable, missing model file, or a malformed
`-BeforeDate`; an empty candidate list exits 0 after an `empty` progress
line; otherwise the file loop runs and the exit code is 1 exactly when at
least one `$results` record has status `error` (part_001 lines 393-402). -/
def runScript (cfg : ExecConfig) (outputRoot : String)
    (files : List (MediaFile × FileEnv)) : ScriptResult :=
  if !cfg.inputFolderExists then
    ScriptResult.thrown [] "Input folder not found"
  else if !cfg.ffmpegFound then
    ScriptResult.thrown [] "ffmpeg not found on PATH. Set -FfmpegExe or install ffmpeg."
  else if !cfg.whisperFound then
    ScriptResult.thrown [] "whisper executable not found"
  else if !cfg.modelFound then
    ScriptResult.thrown [] "Model file not found"
  else if !(wsStr cfg.beforeDate) && !(matchBeforeDate cfg.beforeDate.toList) then
    ScriptResult.thrown [] "BeforeDate must be YYYY-MM-DD (example: 2024-12-31)"
  else
    let cands := candidatesOf cfg files
    if cands.isEmpty then
      ScriptResult.finished
        [Event.log "No media files found.", Event.progress 0 0 "empty" ""] [] 0
    else
      let total := cands.length
      let outcomes := runFiles cfg outputRoot total 0 cands
      let results := outcomes.map (·.result)
      let errCount := (results.filter (fun r => r.status == "error")).length
      ScriptResult.finished
        (Event.progress 0 total "start" ""
          :: (outcomes.map (·.events)).flatten
          ++ [Event.progress (cands.length) total "complete" ""])
        results
        (if 0 < errCount then 1 else 0)

/-! ## Event classifiers and spec-side definitions -/

/-- Is the event an invocation of one of the two external engines? -/
def isEngineEvent : Event → Bool
  | .ffmpegCall _ _ => true
  | .whisperCall _ => true
  | _ => false

/-- Is the event a structured progress line? -/
def isProgressEvent : Event → Bool
  | .progress _ _ _ _ => true
  | _ => false

/-- Is the event a structured progress line whose source field is `s`? -/
def progressWithSource (s : String) : Event → Bool
  | .progress _ _ _ src => src == s
  | _ => false

/-- Is the event a pause-flag poll or an engine invocation? -/
def isPollOrEngine : Event → Bool
  | .poll _ => true
  | .ffmpegCall _ _ => true
  | .whisperCall _ => true
  | _ => false

/-- The poll sub-trace of one `Wait-IfPaused` call that observed the flag
present `n` times: `n` positive polls followed by the final negative poll,
and nothing at all when the flag path is null/whitespace. -/
def pollBlock (path : String) (n : Nat) : List Event :=
  if wsStr path then [] else List.replicate n (Event.poll true) ++ [Event.poll false]

/-- Does the progress event carry one of the status tokens the script ever
emits (non-progress events pass trivially)? -/
def progressStatusOk : Event → Bool
  | .progress _ _ st _ =>
    st == "start" || st == "complete" || st == "empty" || st == "skipped-date"
      || st == "skipped" || st == "error-ffmpeg" || st == "error-whisper" || st == "ok"
  | _ => true

/-- Modelled from the spec: the Executor-to-Controller stdout contract
grammar, a line of the shape
`[progress] done=<int> total=<int> [status=<token>] [source=<path>]`
where the bracketed fields are optional, `<token>` is a non-empty word
without whitespace and `<path>` is an arbitrary string. -/
def SpecProgressLine (line : String) : Prop :=
  ∃ d t : Nat, ∃ sp pp : String,
    line = "[progress] done=" ++ toString d ++ " total=" ++ toString t ++ sp ++ pp
    ∧ (sp = "" ∨ ∃ tok : String,
        tok ≠ "" ∧ tok.toList.all (fun c => !(isWsChar c)) = true ∧ sp = " status=" ++ tok)
    ∧ (pp = "" ∨ ∃ p : String, pp = " source=" ++ p)

/-- Modelled from the spec: a well-formed cutoff date of the start-request
schema, written `YYYY-MM-DD` (four digits, dash, two digits, dash, two
digits). -/
def specWellFormedCutoff (l : List Char) : Bool :=
  match l with
  | [y1, y2, y3, y4, h1, m1, m2, h2, d1, d2] =>
    isDigitChar y1 && isDigitChar y2 && isDigitChar y3 && isDigitChar y4
      && h1 == '-' && isDigitChar m1 && isDigitChar m2
      && h2 == '-' && isDigitChar d1 && isDigitChar d2
  | _ => false

/-! ## Analysis helpers for the slug and the paragraph reflow

These definitions are not part of the embedding; they name the shapes the
theorems talk about. -/

/-- The buffer-extension step of the packing loop: how the loop appends one
(non-whitespace) sentence to the running buffer (part_001 lines 114-118). -/
def bufExtend (buf s : List Char) : List Char :=
  if wsEmpty buf then trimWs s else buf ++ ' ' :: trimWs s

/-- The buffer obtained by packing the sentence group `g` in order into an
initially empty buffer. -/
def bufOf (g : List (List Char)) : List Char := g.foldl bufExtend []

/-- No two adjacent dashes. -/
def noDoubleDash : List Char → Bool
  | c :: d :: rest => !(c == '-' && d == '-') && noDoubleDash (d :: rest)
  | _ => true

/-- The shape of every non-fallback `Get-Slug` output: non-empty, over the
alphabet `[a-z0-9-]`, no leading or trailing dash, no run of dashes, and at
most 96 characters. -/
def GoodSlugP (l : List Char) : Prop :=
  l ≠ [] ∧ (∀ c ∈ l, isLowerAlnum c = true ∨ c = '-') ∧ l.head? ≠ some '-'
    ∧ l.getLast? ≠ some '-' ∧ noDoubleDash l = true ∧ l.length ≤ 96

/-- Is the event a log line starting with the pause-request notice text? -/
def isPauseNotice : Event → Bool
  | .log s => s.toList.take 16 == "[pause] Pause re".toList
  | _ => false

/-- Is the event a log line starting with the resume notice text? -/
def isResumeNotice : Event → Bool
  | .log s => s.toList.take 16 == "[pause] Resume d".toList
  | _ => false

/-! ## Helper lemmas -/

theorem toList_append (a b : String) : (a ++ b).toList = a.toList ++ b.toList := rfl

theorem gateLoop_gate_only (path ctx : String) :
    ∀ (n : Nat) (ann : Bool), ∀ e ∈ gateLoop path ctx n ann,
      (∃ b, e = Event.poll b) ∨ (∃ k, e = Event.sleep k) ∨ (∃ s, e = Event.log s) := by
  intro n
  induction n with
  | zero =>
    intro ann e he
    cases ann <;> simp only [gateLoop, List.mem_cons, List.not_mem_nil, or_false,
      Bool.false_eq_true, Bool.true_eq_false, ite_true, ite_false] at he
    · exact he ▸ Or.inl ⟨false, rfl⟩
    · rcases he with rfl | rfl
      · exact Or.inl ⟨false, rfl⟩
      · exact Or.inr (Or.inr ⟨_, rfl⟩)
  | succ n ih =>
    intro ann e he
    cases ann <;>
      simp only [gateLoop, Bool.false_eq_true, Bool.true_eq_false, ite_true, ite_false,
        List.cons_append, List.nil_append, List.mem_cons, List.mem_append,
        List.not_mem_nil, or_false] at he
    · rcases he with rfl | rfl | rfl | rfl | he
      · exact Or.inl ⟨true, rfl⟩
      · exact Or.inr (Or.inr ⟨_, rfl⟩)
      · exact Or.inr (Or.inr ⟨_, rfl⟩)
      · exact Or.inr (Or.inl ⟨2, rfl⟩)
      · exact ih true e he
    · rcases he with rfl | rfl | he
      · exact Or.inl ⟨true, rfl⟩
      · exact Or.inr (Or.inl ⟨2, rfl⟩)
      · exact ih true e he

theorem gateEvents_gate_only (path ctx : String) (n : Nat) :
    ∀ e ∈ gateEvents path ctx n,
      (∃ b, e = Event.poll b) ∨ (∃ k, e = Event.sleep k) ∨ (∃ s, e = Event.log s) := by
  intro e he
  unfold gateEvents at he
  split at he
  · cases he
  · exact gateLoop_gate_only path ctx n false e he

theorem gateEvents_no_engine (path ctx : String) (n : Nat) :
    ∀ e ∈ gateEvents path ctx n, isEngineEvent e = false := by
  intro e he
  rcases gateEvents_gate_only path ctx n e he with ⟨b, rfl⟩ | ⟨k, rfl⟩ | ⟨s, rfl⟩ <;> rfl

theorem gateEvents_no_progress (path ctx : String) (n : Nat) :
    ∀ e ∈ gateEvents path ctx n, isProgressEvent e = false := by
  intro e he
  rcases gateEvents_gate_only path ctx n e he with ⟨b, rfl⟩ | ⟨k, rfl⟩ | ⟨s, rfl⟩ <;> rfl

theorem notProgress_progressWithSource {e : Event} (s : String)
    (h : isProgressEvent e = false) : progressWithSource s e = false := by
  cases e <;> simp_all [isProgressEvent, progressWithSource]

/-- The exit-code computation of part_001 lines 393-402, isolated. -/
theorem errExit_iff (res : List FileResult) :
    ((if 0 < ((res.filter (fun r => r.status == "error")).length) then 1 else 0) = 1)
      ↔ ∃ r ∈ res, r.status = "error" := by
  by_cases hp : 0 < ((res.filter (fun r => r.status == "error")).length)
  · simp only [hp, if_pos, true_iff]
    rcases List.exists_mem_of_length_pos hp with ⟨r, hr⟩
    exact ⟨r, List.mem_of_mem_filter hr, by simpa using List.of_mem_filter hr⟩
  · simp only [hp, if_false]
    constructor
    · intro h; omega
    · rintro ⟨r, hmem, hst⟩
      have : r ∈ res.filter (fun r => r.status == "error") :=
        List.mem_filter.mpr ⟨hmem, by simp [hst]⟩
      exact absurd (List.length_pos.mpr (List.ne_nil_of_mem this)) hp

/-- Structural description of every successfully finished run: either the
empty-scan early exit, or the file loop followed by the error count. -/
theorem runScript_finished_cases (cfg : ExecConfig) (root : String)
    (files : List (MediaFile × FileEnv)) (ev : List Event)
    (res : List FileResult) (code : Nat)
    (h : runScript cfg root files = ScriptResult.finished ev res code) :
    (res = [] ∧ code = 0
      ∧ ev = [Event.log "No media files found.", Event.progress 0 0 "empty" ""]
      ∧ candidatesOf cfg files = [])
    ∨ (res = (runFiles cfg root (candidatesOf cfg files).length 0
          (candidatesOf cfg files)).map (·.result)
        ∧ code = (if 0 < ((res.filter (fun r => r.status == "error")).length) then 1 else 0)
        ∧ ev = Event.progress 0 (candidatesOf cfg files).length "start" ""
            :: ((runFiles cfg root (candidatesOf cfg files).length 0
                  (candidatesOf cfg files)).map (·.events)).flatten
            ++ [Event.progress (candidatesOf cfg files).length
                  (candidatesOf cfg files).length "complete" ""]) := by
  rcases Bool.eq_false_or_eq_true cfg.inputFolderExists with h1 | h1
  case inr => simp [runScript, h1] at h
  rcases Bool.eq_false_or_eq_true cfg.ffmpegFound with h2 | h2
  case inr => simp [runScript, h1, h2] at h
  rcases Bool.eq_false_or_eq_true cfg.whisperFound with h3 | h3
  case inr => simp [runScript, h1, h2, h3] at h
  rcases Bool.eq_false_or_eq_true cfg.modelFound with h4 | h4
  case inr => simp [runScript, h1, h2, h3, h4] at h
  simp only [runScript, h1, h2, h3, h4, Bool.not_true, Bool.false_eq_true, if_false] at h
  by_cases h5 : (!(wsStr cfg.beforeDate) && !(matchBeforeDate cfg.beforeDate.toList)) = true
  · rw [if_pos h5] at h; cases h
  rw [if_neg h5] at h
  by_cases h6 : (candidatesOf cfg files).isEmpty = true
  · rw [if_pos h6] at h
    cases h
    exact Or.inl ⟨rfl, rfl, rfl, List.isEmpty_iff.mp h6⟩
  · rw [if_neg h6] at h
    cases h
    exact Or.inr ⟨rfl, rfl, rfl⟩

/-- C3: the Executor's exit code is 1 exactly when at least one file was
recorded with status `error`, and 0 otherwise; skipped and skipped-date
records never produce a nonzero exit code. -/
theorem c3_exit_code_contract (cfg : ExecConfig) (root : String)
    (files : List (MediaFile × FileEnv)) (ev : List Event)
    (res : List FileResult) (code : Nat)
    (h : runScript cfg root files = ScriptResult.finished ev res code) :
    (code = 1 ↔ ∃ r ∈ res, r.status = "error")
    ∧ (code = 0 ↔ ∀ r ∈ res, r.status ≠ "error")
    ∧ (code = 0 ∨ code = 1) := by
  rcases runScript_finished_cases cfg root files ev res code h with
    ⟨hres, hcode, _, _⟩ | ⟨hres, hcode, _⟩
  · subst hres; subst hcode
    refine ⟨by simp, by simp, Or.inl rfl⟩
  · have hiff : code = 1 ↔ ∃ r ∈ res, r.status = "error" := hcode ▸ errExit_iff res
    have hcases : code = 0 ∨ code = 1 := by rw [hcode]; split <;> simp
    refine ⟨hiff, ?_, hcases⟩
    constructor
    · intro h0 r hmem hst
      have h1 : code ≠ 1 := by omega
      exact h1 (hiff.mpr ⟨r, hmem, hst⟩)
    · intro hall
      rcases hcases with h0 | h1
      · exact h0
      · rcases hiff.mp h1 with ⟨r, hmem, hst⟩
        exact absurd hst (hall r hmem)

/-- C1 (amended): for a file whose raw transcript already exists with
force=false, the iteration invokes no engine and records status `skipped`,
except that when the date-cutoff filter fires first the recorded status is
`skipped-date` (still with no engine invocation). -/
theorem c1_raw_exists_never_invokes_engines
    (cfg : ExecConfig) (root : String) (done total : Nat)
    (f : MediaFile) (env : FileEnv)
    (hraw : env.rawExists = true) (hforce : cfg.force = false) :
    (∀ e ∈ (processFile cfg root done total f env).events, isEngineEvent e = false)
    ∧ ((processFile cfg root done total f env).result.status = "skipped"
        ∨ (processFile cfg root done total f env).result.status = "skipped-date")
    ∧ ((wsStr cfg.beforeDate = true
          ∨ strGtS (String.mk (getDateBucket f.baseName.toList f.lastWriteDate.toList))
              cfg.beforeDate = false)
        → (processFile cfg root done total f env).result.status = "skipped") := by
  by_cases hd : (!(wsStr cfg.beforeDate)
      && strGtS (String.mk (getDateBucket f.baseName.toList f.lastWriteDate.toList))
        cfg.beforeDate) = true
  · refine ⟨?_, ?_, ?_⟩
    · intro e he
      rw [processFile, if_pos hd] at he
      rcases List.mem_append.mp he with hg | ht
      · rcases List.mem_append.mp hg with hg1 | hh
        · exact gateEvents_no_engine _ _ _ e hg1
        · simp only [List.mem_cons, List.not_mem_nil, or_false] at hh
          rcases hh with rfl | rfl <;> rfl
      · simp only [List.mem_cons, List.not_mem_nil, or_false] at ht
        rcases ht with rfl | rfl <;> rfl
    · right
      rw [processFile, if_pos hd]
    · intro hdisj
      rw [Bool.and_eq_true, Bool.not_eq_true'] at hd
      rcases hdisj with hws | hgt
      · rw [hws] at hd; exact absurd hd.1 (by simp)
      · rw [hgt] at hd; exact absurd hd.2 (by simp)
  · have hskip : (env.rawExists && !cfg.force) = true := by simp [hraw, hforce]
    rw [Bool.not_eq_true] at hd
    have hd2 : ¬((!(wsStr cfg.beforeDate)
        && strGtS (String.mk (getDateBucket f.baseName.toList f.lastWriteDate.toList))
          cfg.beforeDate) = true) := fun hc => by rw [hc] at hd; cases hd
    refine ⟨?_, Or.inl ?_, fun _ => ?_⟩
    · intro e he
      rw [processFile, if_neg hd2, if_pos hskip] at he
      rcases List.mem_append.mp he with hg | ht
      · rcases List.mem_append.mp hg with hg1 | hh
        · exact gateEvents_no_engine _ _ _ e hg1
        · simp only [List.mem_cons, List.not_mem_nil, or_false] at hh
          rcases hh with rfl | rfl <;> rfl
      · simp only [List.mem_cons, List.not_mem_nil, or_false] at ht
        rcases ht with rfl | rfl <;> rfl
    · rw [processFile, if_neg hd2, if_pos hskip]
    · rw [processFile, if_neg hd2, if_pos hskip]

/-- C1 witness: the amended theorem applied at a concrete file whose
raw transcript exists, with force=false and no cutoff configured. -/
theorem c1_witness :
    (⟨true, 0, 0, true, true, 0, 0, 0⟩ : FileEnv).rawExists = true
    ∧ (⟨false, "", false, false, "", 0, true, true, true, true⟩ : ExecConfig).force = false
    ∧ (processFile ⟨false, "", false, false, "", 0, true, true, true, true⟩ "D:\\out" 0 1
        ⟨"D:\\vMix\\Service.mp4", "Service", "2024-02-01"⟩
        ⟨true, 0, 0, true, true, 0, 0, 0⟩).result.status = "skipped" := by
  refine ⟨rfl, rfl, ?_⟩
  exact (c1_raw_exists_never_invokes_engines
    ⟨false, "", false, false, "", 0, true, true, true, true⟩ "D:\\out" 0 1
    ⟨"D:\\vMix\\Service.mp4", "Service", "2024-02-01"⟩
    ⟨true, 0, 0, true, true, 0, 0, 0⟩ rfl rfl).2.2 (Or.inl (by decide))

/-- C1 counterexample: a file whose raw transcript exists and force=false,
but whose inferred date falls after the configured cutoff, is recorded
`skipped-date`, not `skipped`. -/
theorem c1_counterexample :
    (⟨true, 0, 0, true, true, 0, 0, 0⟩ : FileEnv).rawExists = true
    ∧ (⟨false, "2024-01-01", false, false, "", 0, true, true, true, true⟩ : ExecConfig).force
        = false
    ∧ (processFile ⟨false, "2024-01-01", false, false, "", 0, true, true, true, true⟩
        "D:\\out" 0 1
        ⟨"D:\\vMix\\2024-02-01_Service.mp4", "2024-02-01_Service", "2024-02-01"⟩
        ⟨true, 0, 0, true, true, 0, 0, 0⟩).result.status = "skipped-date"
    ∧ (processFile ⟨false, "2024-01-01", false, false, "", 0, true, true, true, true⟩
        "D:\\out" 0 1
        ⟨"D:\\vMix\\2024-02-01_Service.mp4", "2024-02-01_Service", "2024-02-01"⟩
        ⟨true, 0, 0, true, true, 0, 0, 0⟩).result.status ≠ "skipped" := by
  refine ⟨rfl, rfl, by decide, by decide⟩

/-- C2 (amended): an iteration that records status `error` (an engine
exited nonzero) leaves the raw-transcript artifact exactly as it was
before the iteration; in particular with force=false no raw transcript
exists afterwards, so a retry is not skipped by the idempotence check. -/
theorem c2_failed_step_creates_no_raw
    (cfg : ExecConfig) (root : String) (done total : Nat)
    (f : MediaFile) (env : FileEnv)
    (herr : (processFile cfg root done total f env).result.status = "error") :
    (processFile cfg root done total f env).rawAfter = env.rawExists
    ∧ (cfg.force = false → (processFile cfg root done total f env).rawAfter = false) := by
  by_cases hd : (!(wsStr cfg.beforeDate)
      && strGtS (String.mk (getDateBucket f.baseName.toList f.lastWriteDate.toList))
        cfg.beforeDate) = true
  · rw [processFile, if_pos hd] at herr
    simp at herr
  · by_cases hskip : (env.rawExists && !cfg.force) = true
    · rw [processFile, if_neg hd, if_pos hskip] at herr
      simp at herr
    · have hre : cfg.force = false → env.rawExists = false := by
        intro hforce
        rcases Bool.eq_false_or_eq_true env.rawExists with h | h
        · exact absurd (by simp [h, hforce]) hskip
        · exact h
      by_cases hff : (env.ffmpegExit != 0) = true
      · constructor
        · rw [processFile, if_neg hd, if_neg hskip, if_pos hff]
        · intro hforce
          rw [processFile, if_neg hd, if_neg hskip, if_pos hff]
          exact hre hforce
      · by_cases hw : (env.whisperExit != 0) = true
        · constructor
          · rw [processFile, if_neg hd, if_neg hskip, if_neg hff, if_pos hw]
          · intro hforce
            rw [processFile, if_neg hd, if_neg hskip, if_neg hff, if_pos hw]
            exact hre hforce
        · rw [processFile, if_neg hd, if_neg hskip, if_neg hff, if_neg hw] at herr
          simp at herr

/-- C2 witness: the amended theorem applied at a concrete file whose
ffmpeg invocation fails under force=false. -/
theorem c2_witness :
    (processFile ⟨false, "", false, false, "", 0, true, true, true, true⟩ "D:\\out" 0 1
        ⟨"D:\\vMix\\Service.mp4", "Service", "2024-02-01"⟩
        ⟨false, 1, 0, false, false, 0, 0, 0⟩).result.status = "error"
    ∧ (processFile ⟨false, "", false, false, "", 0, true, true, true, true⟩ "D:\\out" 0 1
        ⟨"D:\\vMix\\Service.mp4", "Service", "2024-02-01"⟩
        ⟨false, 1, 0, false, false, 0, 0, 0⟩).rawAfter = false := by
  refine ⟨by decide, ?_⟩
  exact (c2_failed_step_creates_no_raw
    ⟨false, "", false, false, "", 0, true, true, true, true⟩ "D:\\out" 0 1
    ⟨"D:\\vMix\\Service.mp4", "Service", "2024-02-01"⟩
    ⟨false, 1, 0, false, false, 0, 0, 0⟩ (by decide)).2 rfl

/-- C2 counterexample: with force=true and a raw transcript left by an
earlier run, a failing ffmpeg invocation records status `error` while the
raw-transcript artifact still exists afterwards — so the claim that after
every failed engine step no raw transcript exists is false. -/
theorem c2_counterexample :
    (processFile ⟨true, "", false, false, "", 0, true, true, true, true⟩ "D:\\out" 0 1
        ⟨"D:\\vMix\\Service.mp4", "Service", "2024-02-01"⟩
        ⟨true, 1, 0, false, false, 0, 0, 0⟩).result.status = "error"
    ∧ (processFile ⟨true, "", false, false, "", 0, true, true, true, true⟩ "D:\\out" 0 1
        ⟨"D:\\vMix\\Service.mp4", "Service", "2024-02-01"⟩
        ⟨true, 1, 0, false, false, 0, 0, 0⟩).rawAfter = true := by
  exact ⟨by decide, by decide⟩

/-- C3 witness: the exit-code theorem applied to a concrete two-file run
with one ffmpeg failure and one success, whose exit code is 1. -/
theorem c3_witness :
    runScript ⟨false, "", false, false, "", 0, true, true, true, true⟩ "D:\\out"
        [(⟨"D:\\vMix\\A.mp4", "A", "2024-02-01"⟩, ⟨false, 1, 0, false, false, 0, 0, 0⟩),
         (⟨"D:\\vMix\\B.mp4", "B", "2024-02-01"⟩, ⟨false, 0, 0, true, true, 0, 0, 0⟩)]
      = ScriptResult.finished
        [Event.progress 0 2 "start" "",
         Event.log "",
         Event.log "=== D:\\vMix\\A.mp4 ===",
         Event.ffmpegCall "D:\\vMix\\A.mp4" "D:\\out\\2024-02-01\\a\\audio-source.wav",
         Event.log "ffmpeg failed: D:\\vMix\\A.mp4",
         Event.progress 1 2 "error-ffmpeg" "D:\\vMix\\A.mp4",
         Event.log "",
         Event.log "=== D:\\vMix\\B.mp4 ===",
         Event.ffmpegCall "D:\\vMix\\B.mp4" "D:\\out\\2024-02-01\\b\\audio-source.wav",
         Event.whisperCall "D:\\out\\2024-02-01\\b\\audio-source.wav",
         Event.progress 2 2 "ok" "D:\\vMix\\B.mp4",
         Event.progress 2 2 "complete" ""]
        [⟨"error", "D:\\vMix\\A.mp4", "D:\\out\\2024-02-01\\a", some "ffmpeg"⟩,
         ⟨"ok", "D:\\vMix\\B.mp4", "D:\\out\\2024-02-01\\b", none⟩]
        1
    ∧ (1 = 1 ↔ ∃ r ∈
        [(⟨"error", "D:\\vMix\\A.mp4", "D:\\out\\2024-02-01\\a", some "ffmpeg"⟩ : FileResult),
         ⟨"ok", "D:\\vMix\\B.mp4", "D:\\out\\2024-02-01\\b", none⟩], r.status = "error") := by
  constructor
  · rfl
  · exact (c3_exit_code_contract ⟨false, "", false, false, "", 0, true, true, true, true⟩
      "D:\\out"
      [(⟨"D:\\vMix\\A.mp4", "A", "2024-02-01"⟩, ⟨false, 1, 0, false, false, 0, 0, 0⟩),
       (⟨"D:\\vMix\\B.mp4", "B", "2024-02-01"⟩, ⟨false, 0, 0, true, true, 0, 0, 0⟩)]
      _ _ _ rfl).1

/-- C6: the inferred date bucket is decided first-match-wins in priority
order separated-pattern, contiguous-pattern, last-modified date;
"2024-03-10_Service" buckets to "2024-03-10" by pattern (a),
"20240310_Service" to "2024-03-10" by pattern (b), and a name with no
embedded date buckets to the file's modification date. -/
theorem c6_date_bucket_priority :
    (∀ mtime, getDateBucket "2024-03-10_Service".toList mtime = "2024-03-10".toList)
    ∧ (∀ mtime, getDateBucket "20240310_Service".toList mtime = "2024-03-10".toList)
    ∧ (∀ name mtime b, findFirstMatch matchSepDateAt name = some b →
        getDateBucket name mtime = b)
    ∧ (∀ name mtime b, findFirstMatch matchSepDateAt name = none →
        findFirstMatch matchContigDateAt name = some b →
        getDateBucket name mtime = b)
    ∧ (∀ name mtime, findFirstMatch matchSepDateAt name = none →
        findFirstMatch matchContigDateAt name = none →
        getDateBucket name mtime = mtime) := by
  refine ⟨fun mtime => rfl, fun mtime => rfl, ?_, ?_, ?_⟩
  · intro name mtime b h; unfold getDateBucket; rw [h]
  · intro name mtime b h1 h2; unfold getDateBucket; rw [h1, h2]
  · intro name mtime h1 h2; unfold getDateBucket; rw [h1, h2]

/-- C6 witness: the priority theorem applied to a name with no embedded
date, whose bucket is its modification date. -/
theorem c6_witness :
    findFirstMatch matchSepDateAt "Service".toList = none
    ∧ findFirstMatch matchContigDateAt "Service".toList = none
    ∧ getDateBucket "Service".toList "2019-07-14".toList = "2019-07-14".toList := by
  refine ⟨rfl, rfl, ?_⟩
  exact c6_date_bucket_priority.2.2.2.2 "Service".toList "2019-07-14".toList rfl rfl

/-- C7 (amended): with all dependencies present, the Executor throws
before scanning any file or invoking any engine if and only if the
supplied cutoff string is non-whitespace and fails the anchored pattern
"20" then two digits, dash, two digits, dash, two digits; every cutoff
matching that pattern is accepted. -/
theorem c7_before_date_validation (cfg : ExecConfig) (root : String)
    (files : List (MediaFile × FileEnv))
    (h1 : cfg.inputFolderExists = true) (h2 : cfg.ffmpegFound = true)
    (h3 : cfg.whisperFound = true) (h4 : cfg.modelFound = true) :
    ((∃ ev msg, runScript cfg root files = ScriptResult.thrown ev msg)
       ↔ (wsStr cfg.beforeDate = false ∧ matchBeforeDate cfg.beforeDate.toList = false))
    ∧ (∀ ev msg, runScript cfg root files = ScriptResult.thrown ev msg →
        msg = "BeforeDate must be YYYY-MM-DD (example: 2024-12-31)"
        ∧ (∀ e ∈ ev, isEngineEvent e = false ∧ isProgressEvent e = false)) := by
  by_cases h5 : (!(wsStr cfg.beforeDate) && !(matchBeforeDate cfg.beforeDate.toList)) = true
  · have heq : runScript cfg root files
        = ScriptResult.thrown [] "BeforeDate must be YYYY-MM-DD (example: 2024-12-31)" := by
      simp only [runScript, h1, h2, h3, h4, Bool.not_true, Bool.false_eq_true, if_false]
      rw [if_pos h5]
    have h5c : wsStr cfg.beforeDate = false ∧ matchBeforeDate cfg.beforeDate.toList = false := by
      rw [Bool.and_eq_true, Bool.not_eq_true', Bool.not_eq_true'] at h5
      exact h5
    refine ⟨⟨fun _ => h5c, fun _ => ⟨[], _, heq⟩⟩, ?_⟩
    intro ev msg h
    rw [heq] at h
    cases h
    exact ⟨rfl, by intro e he; cases he⟩
  · have hnot : ∀ ev msg, runScript cfg root files ≠ ScriptResult.thrown ev msg := by
      intro ev msg hcon
      simp only [runScript, h1, h2, h3, h4, Bool.not_true, Bool.false_eq_true, if_false] at hcon
      rw [if_neg h5] at hcon
      by_cases h6 : (candidatesOf cfg files).isEmpty = true
      · rw [if_pos h6] at hcon; cases hcon
      · rw [if_neg h6] at hcon; cases hcon
    refine ⟨⟨?_, ?_⟩, fun ev msg h => absurd h (hnot ev msg)⟩
    · rintro ⟨ev, msg, hc⟩
      exact absurd hc (hnot ev msg)
    · rintro ⟨hws, hmb⟩
      exact absurd (by rw [hws, hmb]; rfl : (!(wsStr cfg.beforeDate)
        && !(matchBeforeDate cfg.beforeDate.toList)) = true) h5

/-- C7 witness: the validation theorem applied at a concrete accepted
cutoff "2024-12-31". -/
theorem c7_witness :
    ((∃ ev msg, runScript ⟨false, "2024-12-31", false, false, "", 0, true, true, true, true⟩
          "D:\\out" [] = ScriptResult.thrown ev msg)
       ↔ (wsStr "2024-12-31" = false ∧ matchBeforeDate "2024-12-31".toList = false))
    ∧ (∀ ev msg, runScript ⟨false, "2024-12-31", false, false, "", 0, true, true, true, true⟩
          "D:\\out" [] = ScriptResult.thrown ev msg →
        msg = "BeforeDate must be YYYY-MM-DD (example: 2024-12-31)"
        ∧ (∀ e ∈ ev, isEngineEvent e = false ∧ isProgressEvent e = false)) :=
  c7_before_date_validation ⟨false, "2024-12-31", false, false, "", 0, true, true, true, true⟩
    "D:\\out" [] rfl rfl rfl rfl

/-- C7 counterexample: "1999-12-31" is a well-formed YYYY-MM-DD cutoff by
the spec's schema, yet the Executor rejects it (the year pattern only
admits 20xx), refuting "every well-formed YYYY-MM-DD cutoff is accepted". -/
theorem c7_counterexample :
    specWellFormedCutoff "1999-12-31".toList = true
    ∧ runScript ⟨false, "1999-12-31", false, false, "", 0, true, true, true, true⟩ "D:\\out" []
        = ScriptResult.thrown [] "BeforeDate must be YYYY-MM-DD (example: 2024-12-31)" :=
  ⟨rfl, rfl⟩


theorem wsStr_false_of_token (st : String) (hne : st ≠ "")
    (hnw : st.toList.all (fun c => !(isWsChar c)) = true) : wsStr st = false := by
  obtain ⟨l⟩ := st
  cases l with
  | nil => exact absurd rfl hne
  | cons c cs =>
    have hc := List.all_eq_true.mp hnw c (by exact List.mem_cons_self c cs)
    unfold wsStr wsEmpty
    simp only [String.toList] at hc ⊢
    rw [Bool.not_eq_true'] at hc
    simp [List.all_cons, hc]

theorem renderProgress_spec (d t : Nat) (st src : String)
    (hst : wsStr st = true ∨ (st ≠ "" ∧ st.toList.all (fun c => !(isWsChar c)) = true)) :
    SpecProgressLine (renderProgress d t st src) := by
  unfold renderProgress SpecProgressLine
  rcases hst with hws | ⟨hne, hnw⟩
  · by_cases hsrc : wsStr src = true
    · exact ⟨d, t, "", "", by simp [hws, hsrc, String.append_empty], Or.inl rfl, Or.inl rfl⟩
    · refine ⟨d, t, "", " source=" ++ src, ?_, Or.inl rfl, Or.inr ⟨src, rfl⟩⟩
      simp [hws, hsrc, String.append_empty]
  · have hws : wsStr st = false := wsStr_false_of_token st hne hnw
    by_cases hsrc : wsStr src = true
    · refine ⟨d, t, " status=" ++ st, "", ?_, Or.inr ⟨st, hne, hnw, rfl⟩, Or.inl rfl⟩
      simp [hws, hsrc, String.append_empty]
    · refine ⟨d, t, " status=" ++ st, " source=" ++ src, ?_,
        Or.inr ⟨st, hne, hnw, rfl⟩, Or.inr ⟨src, rfl⟩⟩
      simp [hws, hsrc]

theorem statusOk_render (d t : Nat) (st src : String)
    (h : progressStatusOk (Event.progress d t st src) = true) :
    SpecProgressLine (renderProgress d t st src) := by
  simp only [progressStatusOk, Bool.or_eq_true, beq_iff_eq] at h
  rcases h with ((((((rfl | rfl) | rfl) | rfl) | rfl) | rfl) | rfl) | rfl <;>
    exact renderProgress_spec d t _ src (Or.inr ⟨by decide, by decide⟩)

theorem gate_statusOk (path ctx : String) (n : Nat) :
    ∀ e ∈ gateEvents path ctx n, progressStatusOk e = true := by
  intro e he
  rcases gateEvents_gate_only path ctx n e he with ⟨b, rfl⟩ | ⟨k, rfl⟩ | ⟨s, rfl⟩ <;> rfl

theorem processFile_events_shape (cfg : ExecConfig) (root : String) (done total : Nat)
    (f : MediaFile) (env : FileEnv) :
    (∃ s1, (processFile cfg root done total f env).events
        = gateEvents cfg.pauseFlagFile "before next file" env.pausePolls1
          ++ [Event.log "", Event.log ("=== " ++ f.fullName ++ " ===")]
          ++ [Event.log s1, Event.progress (done + 1) total "skipped-date" f.fullName])
    ∨ ((processFile cfg root done total f env).events
        = gateEvents cfg.pauseFlagFile "before next file" env.pausePolls1
          ++ [Event.log "", Event.log ("=== " ++ f.fullName ++ " ===")]
          ++ [Event.log "[skip] raw.txt exists",
              Event.progress (done + 1) total "skipped" f.fullName])
    ∨ (∃ a, (processFile cfg root done total f env).events
        = gateEvents cfg.pauseFlagFile "before next file" env.pausePolls1
          ++ [Event.log "", Event.log ("=== " ++ f.fullName ++ " ===")]
          ++ gateEvents cfg.pauseFlagFile "before ffmpeg" env.pausePolls2
          ++ [Event.ffmpegCall f.fullName a,
              Event.log ("ffmpeg failed: " ++ f.fullName),
              Event.progress (done + 1) total "error-ffmpeg" f.fullName])
    ∨ (∃ a, (processFile cfg root done total f env).events
        = gateEvents cfg.pauseFlagFile "before next file" env.pausePolls1
          ++ [Event.log "", Event.log ("=== " ++ f.fullName ++ " ===")]
          ++ gateEvents cfg.pauseFlagFile "before ffmpeg" env.pausePolls2
          ++ [Event.ffmpegCall f.fullName a]
          ++ gateEvents cfg.pauseFlagFile "before whisper" env.pausePolls3
          ++ [Event.whisperCall a,
              Event.log ("whisper failed: " ++ f.fullName),
              Event.progress (done + 1) total "error-whisper" f.fullName])
    ∨ (∃ a, (processFile cfg root done total f env).events
        = gateEvents cfg.pauseFlagFile "before next file" env.pausePolls1
          ++ [Event.log "", Event.log ("=== " ++ f.fullName ++ " ===")]
          ++ gateEvents cfg.pauseFlagFile "before ffmpeg" env.pausePolls2
          ++ [Event.ffmpegCall f.fullName a]
          ++ gateEvents cfg.pauseFlagFile "before whisper" env.pausePolls3
          ++ [Event.whisperCall a,
              Event.progress (done + 1) total "ok" f.fullName]) := by
  by_cases hd : (!(wsStr cfg.beforeDate)
      && strGtS (String.mk (getDateBucket f.baseName.toList f.lastWriteDate.toList))
        cfg.beforeDate) = true
  · refine Or.inl ?_
    rw [processFile, if_pos hd]
    exact ⟨_, rfl⟩
  · by_cases hskip : (env.rawExists && !cfg.force) = true
    · refine Or.inr (Or.inl ?_)
      rw [processFile, if_neg hd, if_pos hskip]
    · by_cases hff : (env.ffmpegExit != 0) = true
      · refine Or.inr (Or.inr (Or.inl ?_))
        rw [processFile, if_neg hd, if_neg hskip, if_pos hff]
        exact ⟨_, rfl⟩
      · by_cases hw : (env.whisperExit != 0) = true
        · refine Or.inr (Or.inr (Or.inr (Or.inl ?_)))
          rw [processFile, if_neg hd, if_neg hskip, if_neg hff, if_pos hw]
          exact ⟨_, rfl⟩
        · refine Or.inr (Or.inr (Or.inr (Or.inr ?_)))
          rw [processFile, if_neg hd, if_neg hskip, if_neg hff, if_neg hw]
          exact ⟨_, rfl⟩

theorem gate_countP_zero (p : Event → Bool)
    (hpo : ∀ b, p (Event.poll b) = false) (hsl : ∀ k, p (Event.sleep k) = false)
    (hlo : ∀ s, p (Event.log s) = false) (path ctx : String) (n : Nat) :
    (gateEvents path ctx n).countP p = 0 := by
  rw [List.countP_eq_zero]
  intro e he
  rcases gateEvents_gate_only path ctx n e he with ⟨b, rfl⟩ | ⟨k, rfl⟩ | ⟨s, rfl⟩ <;>
    simp [hpo, hsl, hlo]

theorem processFile_countP (cfg : ExecConfig) (root : String) (done total : Nat)
    (f : MediaFile) (env : FileEnv) (s : String) :
    (processFile cfg root done total f env).events.countP (progressWithSource s)
      = if f.fullName == s then 1 else 0 := by
  have hg := gate_countP_zero (progressWithSource s) (fun _ => rfl) (fun _ => rfl)
    (fun _ => rfl) cfg.pauseFlagFile
  rcases processFile_events_shape cfg root done total f env with
    ⟨s1, hsh⟩ | hsh | ⟨a, hsh⟩ | ⟨a, hsh⟩ | ⟨a, hsh⟩ <;>
  · rw [hsh]
    simp [List.countP_append, List.countP_cons, hg, progressWithSource]

theorem processFile_statusOk (cfg : ExecConfig) (root : String) (done total : Nat)
    (f : MediaFile) (env : FileEnv) :
    ∀ e ∈ (processFile cfg root done total f env).events, progressStatusOk e = true := by
  intro e he
  rcases processFile_events_shape cfg root done total f env with
    ⟨s1, hsh⟩ | hsh | ⟨a, hsh⟩ | ⟨a, hsh⟩ | ⟨a, hsh⟩ <;>
      rw [hsh] at he <;>
      simp only [List.mem_append, List.mem_cons, List.not_mem_nil, or_false] at he
  · rcases he with (he | rfl | rfl) | rfl | rfl
    all_goals first | rfl | exact gate_statusOk _ _ _ e he
  · rcases he with (he | rfl | rfl) | rfl | rfl
    all_goals first | rfl | exact gate_statusOk _ _ _ e he
  · rcases he with ((he | rfl | rfl) | he) | rfl | rfl | rfl
    all_goals first | rfl | exact gate_statusOk _ _ _ e he
  · rcases he with ((((he | rfl | rfl) | he) | rfl) | he) | rfl | rfl | rfl
    all_goals first | rfl | exact gate_statusOk _ _ _ e he
  · rcases he with ((((he | rfl | rfl) | he) | rfl) | he) | rfl | rfl
    all_goals first | rfl | exact gate_statusOk _ _ _ e he

theorem runFiles_countP (cfg : ExecConfig) (root : String) (total : Nat) (s : String) :
    ∀ (cands : List (MediaFile × FileEnv)) (done : Nat),
      (((runFiles cfg root total done cands).map (·.events)).flatten).countP
          (progressWithSource s)
        = cands.countP (fun fe => fe.1.fullName == s) := by
  intro cands
  induction cands with
  | nil => intro done; rfl
  | cons fe rest ih =>
    intro done
    obtain ⟨f, env⟩ := fe
    simp only [runFiles, List.map_cons, List.flatten_cons, List.countP_append,
      List.countP_cons, ih (done + 1), processFile_countP]
    split <;> omega

theorem runFiles_statusOk (cfg : ExecConfig) (root : String) (total : Nat) :
    ∀ (cands : List (MediaFile × FileEnv)) (done : Nat),
      ∀ o ∈ runFiles cfg root total done cands, ∀ e ∈ o.events, progressStatusOk e = true := by
  intro cands
  induction cands with
  | nil => intro done o ho; cases ho
  | cons fe rest ih =>
    intro done o ho
    obtain ⟨f, env⟩ := fe
    rcases List.mem_cons.mp ho with rfl | ho
    · exact processFile_statusOk cfg root done total f env
    · exact ih (done + 1) o ho

theorem countP_eq_one_of_nodup (l : List (MediaFile × FileEnv)) (f : MediaFile)
    (env : FileEnv) (hmem : (f, env) ∈ l)
    (hnodup : (l.map (fun fe => fe.1.fullName)).Nodup) :
    l.countP (fun fe => fe.1.fullName == f.fullName) = 1 := by
  induction l with
  | nil => cases hmem
  | cons g rest ih =>
    rw [List.map_cons, List.nodup_cons] at hnodup
    rcases List.mem_cons.mp hmem with heq | hmem2
    · rw [← heq] at hnodup ⊢
      rw [List.countP_cons]
      simp only [beq_self_eq_true, if_pos]
      have hzero : rest.countP (fun fe => fe.1.fullName == f.fullName) = 0 := by
        rw [List.countP_eq_zero]
        intro fe hfe hc
        rw [beq_iff_eq] at hc
        exact hnodup.1 (hc ▸ List.mem_map_of_mem (fun fe => fe.1.fullName) hfe)
      omega
    · have hne : g.1.fullName ≠ f.fullName := by
        intro hc
        exact hnodup.1 (hc ▸ List.mem_map_of_mem (fun fe => fe.1.fullName) hmem2)
      have := ih hmem2 hnodup.2
      simp [List.countP_cons, beq_eq_false_iff_ne.mpr hne, this]

/-- C4: every file in the ordered candidate list gets exactly one
structured progress line carrying that file's path as source, regardless
of outcome, and every emitted progress line matches the
`[progress] done=<int> total=<int> [status=<token>] [source=<path>]`
grammar of the stdout contract. -/
theorem c4_progress_contract (cfg : ExecConfig) (root : String)
    (files : List (MediaFile × FileEnv)) (ev : List Event)
    (res : List FileResult) (code : Nat)
    (hrun : runScript cfg root files = ScriptResult.finished ev res code)
    (hnodup : ((candidatesOf cfg files).map (fun fe => fe.1.fullName)).Nodup) :
    (∀ f env, (f, env) ∈ candidatesOf cfg files → wsStr f.fullName = false →
       ev.countP (progressWithSource f.fullName) = 1)
    ∧ (∀ e ∈ ev, ∀ d t st src, e = Event.progress d t st src →
       SpecProgressLine (renderProgress d t st src)) := by
  rcases runScript_finished_cases cfg root files ev res code hrun with
    ⟨hres, hcode, hev, hemp⟩ | ⟨hres, hcode, hev⟩
  · constructor
    · intro f env hmem _
      rw [hemp] at hmem
      cases hmem
    · intro e he d t st src heq
      subst heq
      rw [hev] at he
      simp only [List.mem_cons, List.not_mem_nil, or_false] at he
      rcases he with he | he
      · cases he
      · injection he with hd2 ht2 hst2 hsrc2
        subst hst2
        exact renderProgress_spec _ _ _ _ (Or.inr ⟨by decide, by decide⟩)
  · have hcount := runFiles_countP cfg root (candidatesOf cfg files).length
    constructor
    · intro f env hmem hws
      have hne : f.fullName ≠ "" := by
        intro hc
        rw [hc] at hws
        exact absurd hws (by decide)
      have hne2 : ("" == f.fullName) = false := beq_eq_false_iff_ne.mpr (fun h => hne h.symm)
      rw [hev]
      simp only [List.countP_cons, List.countP_append, List.countP_nil,
        progressWithSource, hne2, if_false]
      rw [hcount f.fullName (candidatesOf cfg files) 0]
      rw [countP_eq_one_of_nodup (candidatesOf cfg files) f env hmem hnodup]
      simp
    · intro e he d t st src heq
      subst heq
      rw [hev] at he
      rcases List.mem_cons.mp he with he1 | he2
      · injection he1 with hd2 ht2 hst2 hsrc2
        subst hst2
        exact renderProgress_spec _ _ _ _ (Or.inr ⟨by decide, by decide⟩)
      · rcases List.mem_append.mp he2 with hfl | hlast
        · rcases List.mem_flatten.mp hfl with ⟨l, hl, hel⟩
          rcases List.mem_map.mp hl with ⟨o, ho, rfl⟩
          have := runFiles_statusOk cfg root (candidatesOf cfg files).length
            (candidatesOf cfg files) 0 o ho _ hel
          exact statusOk_render _ _ _ _ this
        · simp only [List.mem_cons, List.not_mem_nil, or_false] at hlast
          injection hlast with hd2 ht2 hst2 hsrc2
          subst hst2
          exact renderProgress_spec _ _ _ _ (Or.inr ⟨by decide, by decide⟩)

/-- C4 witness: the progress-contract theorem applied to a concrete
one-file successful run. -/
theorem c4_witness :
    ((candidatesOf ⟨false, "", false, false, "", 0, true, true, true, true⟩
        [(⟨"D:\\vMix\\B.mp4", "B", "2024-02-01"⟩, ⟨false, 0, 0, true, true, 0, 0, 0⟩)]).map
          (fun fe => fe.1.fullName)).Nodup
    ∧ ([Event.progress 0 1 "start" "",
        Event.log "",
        Event.log "=== D:\\vMix\\B.mp4 ===",
        Event.ffmpegCall "D:\\vMix\\B.mp4" "D:\\out\\2024-02-01\\b\\audio-source.wav",
        Event.whisperCall "D:\\out\\2024-02-01\\b\\audio-source.wav",
        Event.progress 1 1 "ok" "D:\\vMix\\B.mp4",
        Event.progress 1 1 "complete" ""].countP
          (progressWithSource "D:\\vMix\\B.mp4") = 1) := by
  constructor
  · decide
  · have h := (c4_progress_contract
      ⟨false, "", false, false, "", 0, true, true, true, true⟩ "D:\\out"
      [(⟨"D:\\vMix\\B.mp4", "B", "2024-02-01"⟩, ⟨false, 0, 0, true, true, 0, 0, 0⟩)]
      _ _ _ rfl (by decide)).1
      ⟨"D:\\vMix\\B.mp4", "B", "2024-02-01"⟩ ⟨false, 0, 0, true, true, 0, 0, 0⟩
      (by decide) (by decide)
    exact h

theorem isPauseNotice_pauseLine (ctx : String) :
    isPauseNotice (Event.log (pauseNoticeLine ctx)) = true := by
  simp only [isPauseNotice, pauseNoticeLine, toList_append]
  rw [List.take_append_of_le_length (by decide)]
  decide

theorem isPauseNotice_flagLine (path : String) :
    isPauseNotice (Event.log (pauseFlagLine path)) = false := by
  simp only [isPauseNotice, pauseFlagLine, toList_append]
  rw [List.take_append_of_le_length (by decide)]
  decide

theorem isPauseNotice_resume : isPauseNotice (Event.log resumeNoticeLine) = false := by
  decide

theorem isResumeNotice_pauseLine (ctx : String) :
    isResumeNotice (Event.log (pauseNoticeLine ctx)) = false := by
  simp only [isResumeNotice, pauseNoticeLine, toList_append]
  rw [List.take_append_of_le_length (by decide)]
  decide

theorem isResumeNotice_flagLine (path : String) :
    isResumeNotice (Event.log (pauseFlagLine path)) = false := by
  simp only [isResumeNotice, pauseFlagLine, toList_append]
  rw [List.take_append_of_le_length (by decide)]
  decide

theorem isResumeNotice_resume : isResumeNotice (Event.log resumeNoticeLine) = true := by
  decide

theorem isPauseNotice_poll (b : Bool) : isPauseNotice (Event.poll b) = false := rfl

theorem isPauseNotice_sleep (k : Nat) : isPauseNotice (Event.sleep k) = false := rfl

theorem isResumeNotice_poll (b : Bool) : isResumeNotice (Event.poll b) = false := rfl

theorem isResumeNotice_sleep (k : Nat) : isResumeNotice (Event.sleep k) = false := rfl

theorem gateLoop_countP_pause (path ctx : String) :
    ∀ n : Nat,
      (gateLoop path ctx n true).countP isPauseNotice = 0
      ∧ (gateLoop path ctx n false).countP isPauseNotice = (if 0 < n then 1 else 0) := by
  intro n
  induction n with
  | zero =>
    constructor <;>
      simp [gateLoop, List.countP_cons, isPauseNotice_resume, isPauseNotice_poll]
  | succ n ih =>
    constructor
    · simp [gateLoop, List.countP_cons, List.countP_append, ih.1,
        isPauseNotice_poll, isPauseNotice_sleep]
    · simp [gateLoop, List.countP_cons, List.countP_append, ih.1,
        isPauseNotice_pauseLine, isPauseNotice_flagLine,
        isPauseNotice_poll, isPauseNotice_sleep]

theorem gateLoop_countP_resume (path ctx : String) :
    ∀ n : Nat,
      (gateLoop path ctx n true).countP isResumeNotice = 1
      ∧ (gateLoop path ctx n false).countP isResumeNotice = (if 0 < n then 1 else 0) := by
  intro n
  induction n with
  | zero =>
    constructor <;>
      simp [gateLoop, List.countP_cons, isResumeNotice_resume, isResumeNotice_poll]
  | succ n ih =>
    constructor
    · simp [gateLoop, List.countP_cons, List.countP_append, ih.1,
        isResumeNotice_poll, isResumeNotice_sleep]
    · simp [gateLoop, List.countP_cons, List.countP_append, ih.1,
        isResumeNotice_pauseLine, isResumeNotice_flagLine,
        isResumeNotice_poll, isResumeNotice_sleep]

theorem gateLoop_filter_pollEngine (path ctx : String) :
    ∀ (n : Nat) (ann : Bool),
      (gateLoop path ctx n ann).filter isPollOrEngine
        = List.replicate n (Event.poll true) ++ [Event.poll false] := by
  intro n
  induction n with
  | zero =>
    intro ann
    cases ann <;> simp [gateLoop, List.filter_cons, isPollOrEngine]
  | succ n ih =>
    intro ann
    cases ann <;>
      simp [gateLoop, List.filter_cons, List.filter_append, isPollOrEngine, ih true,
        List.replicate_succ]

theorem gateEvents_filter_pollEngine (path ctx : String) (n : Nat) :
    (gateEvents path ctx n).filter isPollOrEngine = pollBlock path n := by
  unfold gateEvents pollBlock
  split
  · rfl
  · exact gateLoop_filter_pollEngine path ctx n false

theorem gateLoop_sleep_bounded (path ctx : String) :
    ∀ (n : Nat) (ann : Bool) (k : Nat), Event.sleep k ∈ gateLoop path ctx n ann → k = 2 := by
  intro n
  induction n with
  | zero =>
    intro ann k hk
    cases ann <;> simp only [gateLoop, List.mem_cons, List.not_mem_nil, or_false,
      Bool.false_eq_true, Bool.true_eq_false, ite_true, ite_false] at hk
    · cases hk
    · rcases hk with hk | hk <;> cases hk
  | succ n ih =>
    intro ann k hk
    cases ann <;>
      simp only [gateLoop, Bool.false_eq_true, Bool.true_eq_false, ite_true, ite_false,
        List.cons_append, List.nil_append, List.mem_cons, List.mem_append,
        List.not_mem_nil, or_false] at hk
    · rcases hk with hk | hk | hk | hk | hk
      · cases hk
      · cases hk
      · cases hk
      · injection hk
      · exact ih true k hk
    · rcases hk with hk | hk | hk
      · cases hk
      · injection hk
      · exact ih true k hk

/-- C9: while the checkpoint marker exists the gate blocks, polling at the
bounded two-second interval; it logs one paused notice only on first
detection and one resumed notice only on clearing, never one per poll; and
within a file iteration the marker is polled only at the three safe points
(before the next file, before conversion, before recognition) — the
poll/engine projection of the trace is gate polls, conversion call, gate
polls, recognition call, with no poll during an engine invocation. -/
theorem c9_gate_pause_contract :
    (∀ path ctx : String, ∀ n : Nat,
      ((gateEvents path ctx n).countP isPauseNotice
          = if wsStr path = false ∧ 0 < n then 1 else 0)
      ∧ ((gateEvents path ctx n).countP isResumeNotice
          = if wsStr path = false ∧ 0 < n then 1 else 0)
      ∧ (∀ k, Event.sleep k ∈ gateEvents path ctx n → k = 2)
      ∧ ((gateEvents path ctx n).countP isPollOrEngine
          = if wsStr path = false then n + 1 else 0))
    ∧ (∀ (cfg : ExecConfig) (root : String) (done total : Nat) (f : MediaFile) (env : FileEnv),
        ((processFile cfg root done total f env).events.filter isPollOrEngine
            = pollBlock cfg.pauseFlagFile env.pausePolls1)
        ∨ (∃ a, (processFile cfg root done total f env).events.filter isPollOrEngine
            = pollBlock cfg.pauseFlagFile env.pausePolls1
              ++ pollBlock cfg.pauseFlagFile env.pausePolls2
              ++ [Event.ffmpegCall f.fullName a])
        ∨ (∃ a, (processFile cfg root done total f env).events.filter isPollOrEngine
            = pollBlock cfg.pauseFlagFile env.pausePolls1
              ++ pollBlock cfg.pauseFlagFile env.pausePolls2
              ++ [Event.ffmpegCall f.fullName a]
              ++ pollBlock cfg.pauseFlagFile env.pausePolls3
              ++ [Event.whisperCall a])) := by
  constructor
  · intro path ctx n
    by_cases hws : wsStr path = true
    · refine ⟨?_, ?_, ?_, ?_⟩ <;>
        simp [gateEvents, hws]
    · rw [Bool.not_eq_true] at hws
      have hgE : gateEvents path ctx n = gateLoop path ctx n false := by
        unfold gateEvents
        rw [if_neg (by simp [hws])]
      refine ⟨?_, ?_, ?_, ?_⟩
      · rw [hgE, (gateLoop_countP_pause path ctx n).2]
        simp [hws]
      · rw [hgE, (gateLoop_countP_resume path ctx n).2]
        simp [hws]
      · intro k hk
        rw [hgE] at hk
        exact gateLoop_sleep_bounded path ctx n false k hk
      · rw [hgE, List.countP_eq_length_filter, gateLoop_filter_pollEngine path ctx n false]
        simp [hws]
  · intro cfg root done total f env
    rcases processFile_events_shape cfg root done total f env with
      ⟨s1, hsh⟩ | hsh | ⟨a, hsh⟩ | ⟨a, hsh⟩ | ⟨a, hsh⟩
    · refine Or.inl ?_
      rw [hsh]
      simp [List.filter_append, gateEvents_filter_pollEngine, List.filter_cons, isPollOrEngine]
    · refine Or.inl ?_
      rw [hsh]
      simp [List.filter_append, gateEvents_filter_pollEngine, List.filter_cons, isPollOrEngine]
    · refine Or.inr (Or.inl ⟨a, ?_⟩)
      rw [hsh]
      simp [List.filter_append, gateEvents_filter_pollEngine, List.filter_cons, isPollOrEngine]
    · refine Or.inr (Or.inr ⟨a, ?_⟩)
      rw [hsh]
      simp [List.filter_append, gateEvents_filter_pollEngine, List.filter_cons, isPollOrEngine]
    · refine Or.inr (Or.inr ⟨a, ?_⟩)
      rw [hsh]
      simp [List.filter_append, gateEvents_filter_pollEngine, List.filter_cons, isPollOrEngine]

/-- C9 witness: the gate contract applied at a concrete flag path with two
positive polls, discharging the sleep-membership hypothesis. -/
theorem c9_witness :
    ((gateEvents "D:\\p.flag" "before next file" 2).countP isPauseNotice
        = if wsStr "D:\\p.flag" = false ∧ 0 < 2 then 1 else 0)
    ∧ Event.sleep 2 ∈ gateEvents "D:\\p.flag" "before next file" 2
    ∧ 2 = 2 := by
  refine ⟨(c9_gate_pause_contract.1 "D:\\p.flag" "before next file" 2).1, by decide, ?_⟩
  exact (c9_gate_pause_contract.1 "D:\\p.flag" "before next file" 2).2.2.1 2 (by decide)

theorem lowerChar_id (c : Char) (h : isLowerAlnum c = true ∨ c = '-') :
    lowerChar c = c := by
  unfold lowerChar
  by_cases hb : (65 ≤ c.toNat && c.toNat ≤ 90) = true
  · exfalso
    rcases h with h | rfl
    · simp only [isLowerAlnum, Bool.or_eq_true, Bool.and_eq_true, decide_eq_true_eq] at h
      simp only [Bool.and_eq_true, decide_eq_true_eq] at hb
      omega
    · simp at hb
  · rw [if_neg hb]

theorem mem_replaceRunsGo (p : Char → Bool) (r : Char) :
    ∀ (l : List Char) (b : Bool) (c : Char), c ∈ replaceRunsGo p r b l →
      c = r ∨ (c ∈ l ∧ p c = false) := by
  intro l
  induction l with
  | nil => intro b c hc; cases hc
  | cons d ds ih =>
    intro b c hc
    by_cases hp : p d = true
    · rw [replaceRunsGo, if_pos hp] at hc
      cases b
      · simp only [Bool.false_eq_true, ite_false, List.mem_cons] at hc
        rcases hc with rfl | hc
        · exact Or.inl rfl
        · rcases ih true c hc with h | ⟨hmem, hpc⟩
          · exact Or.inl h
          · exact Or.inr ⟨List.mem_cons_of_mem d hmem, hpc⟩
      · simp only [ite_true] at hc
        rcases ih true c hc with h | ⟨hmem, hpc⟩
        · exact Or.inl h
        · exact Or.inr ⟨List.mem_cons_of_mem d hmem, hpc⟩
    · rw [replaceRunsGo, if_neg hp] at hc
      rcases List.mem_cons.mp hc with rfl | hc
      · exact Or.inr ⟨List.mem_cons_self c ds, by rw [Bool.not_eq_true] at hp; exact hp⟩
      · rcases ih false c hc with h | ⟨hmem, hpc⟩
        · exact Or.inl h
        · exact Or.inr ⟨List.mem_cons_of_mem d hmem, hpc⟩

theorem noDD_tail (c : Char) (l : List Char)
    (h : noDoubleDash (c :: l) = true) : noDoubleDash l = true := by
  cases l with
  | nil => rfl
  | cons d ds =>
    rw [noDoubleDash, Bool.and_eq_true] at h
    exact h.2

theorem noDD_cons_of_ne (c : Char) (l : List Char)
    (hc : (c == '-') = false) (hl : noDoubleDash l = true) :
    noDoubleDash (c :: l) = true := by
  cases l with
  | nil => rfl
  | cons d ds =>
    rw [noDoubleDash, Bool.and_eq_true]
    exact ⟨by simp [hc], hl⟩

theorem noDD_cons_dash (l : List Char)
    (hh : l.head? ≠ some '-') (hl : noDoubleDash l = true) :
    noDoubleDash ('-' :: l) = true := by
  cases l with
  | nil => rfl
  | cons d ds =>
    rw [noDoubleDash, Bool.and_eq_true]
    refine ⟨?_, hl⟩
    have hd : d ≠ '-' := by
      intro rfl2
      subst rfl2
      exact hh rfl
    simp [beq_eq_false_iff_ne.mpr hd]

theorem repDash_good :
    ∀ l : List Char,
      noDoubleDash (replaceRunsGo (fun c => c == '-') '-' false l) = true
      ∧ noDoubleDash (replaceRunsGo (fun c => c == '-') '-' true l) = true
      ∧ (replaceRunsGo (fun c => c == '-') '-' true l).head? ≠ some '-' := by
  intro l
  induction l with
  | nil => exact ⟨rfl, rfl, by intro h; cases h⟩
  | cons d ds ih =>
    by_cases hp : (d == '-') = true
    · have hd : d = '-' := beq_iff_eq.mp hp
      subst hd
      refine ⟨?_, ?_, ?_⟩
      · rw [replaceRunsGo, if_pos hp]
        simp only [Bool.false_eq_true, ite_false]
        exact noDD_cons_dash _ ih.2.2 ih.2.1
      · rw [replaceRunsGo, if_pos hp]
        simp only [ite_true]
        exact ih.2.1
      · rw [replaceRunsGo, if_pos hp]
        simp only [ite_true]
        exact ih.2.2
    · refine ⟨?_, ?_, ?_⟩
      · rw [replaceRunsGo, if_neg hp]
        exact noDD_cons_of_ne d _ (by simpa using hp) ih.1
      · rw [replaceRunsGo, if_neg hp]
        exact noDD_cons_of_ne d _ (by simpa using hp) ih.1
      · rw [replaceRunsGo, if_neg hp]
        simp only [List.head?_cons, ne_eq, Option.some.injEq]
        intro hc
        exact absurd (beq_iff_eq.mpr hc) (by simpa using hp)

theorem noDD_append_right (x y : List Char)
    (h : noDoubleDash (x ++ y) = true) : noDoubleDash y = true := by
  induction x with
  | nil => exact h
  | cons c cs ih => exact ih (noDD_tail c _ h)

theorem noDD_append_left (x y : List Char)
    (h : noDoubleDash (x ++ y) = true) : noDoubleDash x = true := by
  induction x with
  | nil => rfl
  | cons c cs ih =>
    cases cs with
    | nil => rfl
    | cons d ds =>
      rw [List.cons_append, List.cons_append, noDoubleDash, Bool.and_eq_true] at h
      rw [noDoubleDash, Bool.and_eq_true]
      exact ⟨h.1, ih h.2⟩

theorem dropWhile_head_not (p : Char → Bool) :
    ∀ (l : List Char) (c : Char), (l.dropWhile p).head? = some c → p c = false := by
  intro l
  induction l with
  | nil => intro c hc; cases hc
  | cons d ds ih =>
    intro c hc
    by_cases hp : p d = true
    · rw [List.dropWhile_cons_of_pos hp] at hc
      exact ih c hc
    · rw [Bool.not_eq_true] at hp
      rw [List.dropWhile_cons_of_neg (by simp [hp])] at hc
      injection hc with hc
      subst hc
      exact hp

theorem dropWhile_getLast (p : Char → Bool) :
    ∀ (l : List Char), l.dropWhile p ≠ [] → (l.dropWhile p).getLast? = l.getLast? := by
  intro l
  induction l with
  | nil => intro h; exact absurd rfl h
  | cons d ds ih =>
    intro h
    by_cases hp : p d = true
    · rw [List.dropWhile_cons_of_pos hp] at h ⊢
      have hds : ds ≠ [] := by
        intro hnil
        subst hnil
        exact h (by rfl)
      rw [ih h]
      cases ds with
      | nil => exact absurd rfl hds
      | cons e es => rfl
    · rw [Bool.not_eq_true] at hp
      rw [List.dropWhile_cons_of_neg (by simp [hp])]

theorem dropWhile_eq_self_of_head (p : Char → Bool) (l : List Char)
    (h : ∀ c, l.head? = some c → p c = false) : l.dropWhile p = l := by
  cases l with
  | nil => rfl
  | cons d ds =>
    have := h d rfl
    rw [List.dropWhile_cons_of_neg (by simp [this])]

theorem trimWhile_decomp (p : Char → Bool) (l : List Char) :
    ∃ w, l.dropWhile p = trimWhile p l ++ w ∧ ∀ c ∈ w, p c = true := by
  unfold trimWhile
  refine ⟨((l.dropWhile p).reverse.takeWhile p).reverse, ?_, ?_⟩
  · have h1 := List.takeWhile_append_dropWhile p (l.dropWhile p).reverse
    have h2 : l.dropWhile p = ((l.dropWhile p).reverse).reverse :=
      (List.reverse_reverse _).symm
    conv_lhs => rw [h2, ← h1]
    rw [List.reverse_append]
  · intro c hc
    rw [List.mem_reverse] at hc
    exact List.mem_takeWhile_imp hc

theorem trimWhile_mem (p : Char → Bool) (l : List Char) (c : Char)
    (hc : c ∈ trimWhile p l) : c ∈ l := by
  rcases trimWhile_decomp p l with ⟨w, hw, _⟩
  have : c ∈ l.dropWhile p := by
    rw [hw]
    exact List.mem_append_left w hc
  have hsub := List.dropWhile_sublist (l := l) p
  exact hsub.mem this

theorem trimWhile_getLast_not (p : Char → Bool) (l : List Char) (c : Char)
    (hc : (trimWhile p l).getLast? = some c) : p c = false := by
  unfold trimWhile at hc
  rw [List.getLast?_reverse] at hc
  exact dropWhile_head_not p _ c hc

theorem trimWhile_head_not (p : Char → Bool) (l : List Char) (c : Char)
    (hc : (trimWhile p l).head? = some c) : p c = false := by
  unfold trimWhile at hc
  rw [List.head?_reverse] at hc
  have hne : (l.dropWhile p).reverse.dropWhile p ≠ [] := by
    intro hnil
    rw [hnil] at hc
    cases hc
  rw [dropWhile_getLast p _ hne, List.getLast?_reverse] at hc
  exact dropWhile_head_not p l c hc

theorem trimWhile_noDD (p : Char → Bool) (l : List Char)
    (h : noDoubleDash l = true) : noDoubleDash (trimWhile p l) = true := by
  have hS : noDoubleDash (l.dropWhile p) = true := by
    have := List.takeWhile_append_dropWhile p l
    exact noDD_append_right _ _ (this ▸ h)
  rcases trimWhile_decomp p l with ⟨w, hw, _⟩
  exact noDD_append_left _ _ (hw ▸ hS)

theorem trimWhile_length_le (p : Char → Bool) (l : List Char) :
    (trimWhile p l).length ≤ l.length := by
  rcases trimWhile_decomp p l with ⟨w, hw, _⟩
  have h1 : (l.dropWhile p).length ≤ l.length := (List.dropWhile_sublist p).length_le
  rw [hw, List.length_append] at h1
  omega

theorem trimWhile_eq_self (p : Char → Bool) (l : List Char)
    (hh : ∀ c, l.head? = some c → p c = false)
    (hl : ∀ c, l.getLast? = some c → p c = false) : trimWhile p l = l := by
  unfold trimWhile
  rw [dropWhile_eq_self_of_head p l hh]
  rw [dropWhile_eq_self_of_head p l.reverse (fun c hc => hl c (by rwa [List.head?_reverse] at hc))]
  exact List.reverse_reverse l

theorem mem_dropWhile_of_not (p : Char → Bool) (l : List Char) (c : Char)
    (hc : c ∈ l) (hpc : p c = false) : c ∈ l.dropWhile p := by
  have := List.takeWhile_append_dropWhile p l
  rcases List.mem_append.mp (this ▸ hc) with h | h
  · exact absurd (List.mem_takeWhile_imp h) (by simp [hpc])
  · exact h

theorem mem_trimWhile_of_not (p : Char → Bool) (l : List Char) (c : Char)
    (hc : c ∈ l) (hpc : p c = false) : c ∈ trimWhile p l := by
  have h1 : c ∈ l.dropWhile p := mem_dropWhile_of_not p l c hc hpc
  rcases trimWhile_decomp p l with ⟨w, hw, hwall⟩
  rcases List.mem_append.mp (hw ▸ h1) with h | h
  · exact h
  · exact absurd (hwall c h) (by simp [hpc])

theorem getLast?_cons_of_ne (c : Char) (cs : List Char) (h : cs ≠ []) :
    (c :: cs).getLast? = cs.getLast? := by
  cases cs with
  | nil => exact absurd rfl h
  | cons d ds => rfl

theorem map_lowerChar_id (l : List Char)
    (h : ∀ c ∈ l, isLowerAlnum c = true ∨ c = '-') : l.map lowerChar = l := by
  induction l with
  | nil => rfl
  | cons c cs ih =>
    rw [List.map_cons, lowerChar_id c (h c (List.mem_cons_self c cs)),
      ih (fun d hd => h d (List.mem_cons_of_mem c hd))]

theorem replaceRunsGo_true_eq_false (p : Char → Bool) (r : Char) (l : List Char)
    (h : ∀ c, l.head? = some c → p c = false) :
    replaceRunsGo p r true l = replaceRunsGo p r false l := by
  cases l with
  | nil => rfl
  | cons c cs =>
    have := h c rfl
    rw [replaceRunsGo, replaceRunsGo, if_neg (by simp [this]), if_neg (by simp [this])]

theorem replaceRuns_id (p : Char → Bool) :
    ∀ l : List Char, (∀ c ∈ l, p c = true → c = '-') →
      noDoubleDash l = true → l.getLast? ≠ some '-' →
      replaceRunsGo p '-' false l = l := by
  intro l
  induction l with
  | nil => intro _ _ _; rfl
  | cons c cs ih =>
    intro hchars hnd hlast
    by_cases hpc : p c = true
    · have hc : c = '-' := hchars c (List.mem_cons_self c cs) hpc
      subst hc
      rw [replaceRunsGo, if_pos hpc]
      simp only [Bool.false_eq_true, ite_false]
      cases cs with
      | nil => exact absurd rfl hlast
      | cons d ds =>
        have hd : d ≠ '-' := by
          rw [noDoubleDash, Bool.and_eq_true] at hnd
          have h1 := hnd.1
          simp only [beq_self_eq_true, Bool.true_and, Bool.not_eq_true'] at h1
          exact beq_eq_false_iff_ne.mp h1
        have hpd : p d = false := by
          rcases Bool.eq_false_or_eq_true (p d) with h | h
          · exact absurd (hchars d (List.mem_cons_of_mem _ (List.mem_cons_self d ds)) h) hd
          · exact h
        rw [replaceRunsGo_true_eq_false p '-' (d :: ds)
          (fun e he => by injection he with he; subst he; exact hpd)]
        rw [ih (fun e he hpe => hchars e (List.mem_cons_of_mem _ he) hpe)
          (noDD_tail _ _ hnd)
          (by rwa [getLast?_cons_of_ne '-' (d :: ds) (by simp)] at hlast)]
    · rw [replaceRunsGo, if_neg hpc]
      cases cs with
      | nil => rfl
      | cons d ds =>
        rw [ih (fun e he hpe => hchars e (List.mem_cons_of_mem _ he) hpe)
          (noDD_tail _ _ hnd)
          (by rwa [getLast?_cons_of_ne c (d :: ds) (by simp)] at hlast)]

theorem isWs_false_of_good (c : Char) (h : isLowerAlnum c = true ∨ c = '-') :
    isWsChar c = false := by
  rcases h with h | rfl
  case inr => decide
  case inl =>
    unfold isWsChar
    have f : ∀ w : Char, isLowerAlnum w = false → (c == w) = false := by
      intro w hw
      by_cases hc : c = w
      · subst hc; rw [h] at hw; cases hw
      · exact beq_eq_false_iff_ne.mpr hc
    rw [f ' ' (by decide), f '\t' (by decide), f '\n' (by decide), f '\r' (by decide),
      f '\x0b' (by decide), f '\x0c' (by decide)]
    rfl

theorem wsEmpty_false_of_good (l : List Char) (hne : l ≠ [])
    (hch : ∀ c ∈ l, isLowerAlnum c = true ∨ c = '-') : wsEmpty l = false := by
  cases l with
  | nil => exact absurd rfl hne
  | cons c cs =>
    unfold wsEmpty
    rw [List.all_cons, isWs_false_of_good c (hch c (List.mem_cons_self c cs))]
    rfl

theorem getSlug_id (l : List Char) (h : GoodSlugP l) : getSlugList l = l := by
  obtain ⟨hne, hch, hh, hl, hnd, hlen⟩ := h
  simp only [getSlugList]
  rw [if_neg (by simp [wsEmpty_false_of_good l hne hch])]
  rw [map_lowerChar_id l hch]
  rw [show replaceRuns (fun c => !(isLowerAlnum c)) '-' l = l from
    replaceRuns_id _ l (fun c hc hpc => by
      rcases hch c hc with ha | hd
      · rw [ha] at hpc; cases hpc
      · exact hd) hnd hl]
  rw [show replaceRuns (fun c => c == '-') '-' l = l from
    replaceRuns_id _ l (fun c _ hpc => beq_iff_eq.mp hpc) hnd hl]
  rw [trimWhile_eq_self (fun c => c == '-') l
    (fun c hc => beq_eq_false_iff_ne.mpr (fun he => hh (he ▸ hc)))
    (fun c hc => beq_eq_false_iff_ne.mpr (fun he => hl (he ▸ hc)))]
  rw [if_neg (show ¬(wsEmpty l = true) by simp [wsEmpty_false_of_good l hne hch])]
  rw [if_neg (show ¬(96 < l.length) by omega)]

theorem getSlug_shape (l : List Char) :
    getSlugList l = "service".toList ∨ GoodSlugP (getSlugList l) := by
  by_cases h0 : wsEmpty l = true
  · rw [getSlugList, if_pos h0]
    exact Or.inl rfl
  · simp only [getSlugList]
    rw [if_neg h0]
    have hch2 : ∀ c ∈ replaceRuns (fun c => !(isLowerAlnum c)) '-' (l.map lowerChar),
        isLowerAlnum c = true ∨ c = '-' := by
      intro c hc
      rcases mem_replaceRunsGo _ '-' _ false c hc with rfl | ⟨_, hp⟩
      · exact Or.inr rfl
      · rw [Bool.not_eq_false'] at hp
        exact Or.inl hp
    have hch3 : ∀ c ∈ replaceRuns (fun c => c == '-') '-'
        (replaceRuns (fun c => !(isLowerAlnum c)) '-' (l.map lowerChar)),
        isLowerAlnum c = true ∨ c = '-' := by
      intro c hc
      rcases mem_replaceRunsGo _ '-' _ false c hc with rfl | ⟨hm, _⟩
      · exact Or.inr rfl
      · exact hch2 c hm
    have hnd3 := (repDash_good
      (replaceRuns (fun c => !(isLowerAlnum c)) '-' (l.map lowerChar))).1
    have hch4 : ∀ c ∈ trimWhile (fun c => c == '-')
        (replaceRuns (fun c => c == '-') '-'
          (replaceRuns (fun c => !(isLowerAlnum c)) '-' (l.map lowerChar))),
        isLowerAlnum c = true ∨ c = '-' :=
      fun c hc => hch3 c (trimWhile_mem _ _ c hc)
    have hnd4 : noDoubleDash (trimWhile (fun c => c == '-')
        (replaceRuns (fun c => c == '-') '-'
          (replaceRuns (fun c => !(isLowerAlnum c)) '-' (l.map lowerChar)))) = true :=
      trimWhile_noDD _ _ hnd3
    have hh4 : (trimWhile (fun c => c == '-')
        (replaceRuns (fun c => c == '-') '-'
          (replaceRuns (fun c => !(isLowerAlnum c)) '-' (l.map lowerChar)))).head?
          ≠ some '-' := by
      intro hc
      have := trimWhile_head_not _ _ '-' hc
      simp at this
    have hl4 : (trimWhile (fun c => c == '-')
        (replaceRuns (fun c => c == '-') '-'
          (replaceRuns (fun c => !(isLowerAlnum c)) '-' (l.map lowerChar)))).getLast?
          ≠ some '-' := by
      intro hc
      have := trimWhile_getLast_not _ _ '-' hc
      simp at this
    by_cases h1 : wsEmpty (trimWhile (fun c => c == '-')
        (replaceRuns (fun c => c == '-') '-'
          (replaceRuns (fun c => !(isLowerAlnum c)) '-' (l.map lowerChar)))) = true
    · rw [if_pos h1, if_neg (by decide : ¬(96 < ("service".toList).length))]
      exact Or.inl rfl
    · rw [if_neg h1]
      have hne4 : trimWhile (fun c => c == '-')
          (replaceRuns (fun c => c == '-') '-'
            (replaceRuns (fun c => !(isLowerAlnum c)) '-' (l.map lowerChar))) ≠ [] := by
        intro hnil
        rw [hnil] at h1
        exact h1 rfl
      by_cases h2 : 96 < (trimWhile (fun c => c == '-')
          (replaceRuns (fun c => c == '-') '-'
            (replaceRuns (fun c => !(isLowerAlnum c)) '-' (l.map lowerChar)))).length
      · rw [if_pos h2]
        right
        obtain ⟨c0, rest, hcr⟩ : ∃ c0 rest, trimWhile (fun c => c == '-')
            (replaceRuns (fun c => c == '-') '-'
              (replaceRuns (fun c => !(isLowerAlnum c)) '-' (l.map lowerChar)))
            = c0 :: rest := by
          cases hE : trimWhile (fun c => c == '-')
              (replaceRuns (fun c => c == '-') '-'
                (replaceRuns (fun c => !(isLowerAlnum c)) '-' (l.map lowerChar))) with
          | nil => exact absurd hE hne4
          | cons c0 rest => exact ⟨c0, rest, rfl⟩
        have hc0 : (c0 == '-') = false := by
          have h10 := hh4
          rw [hcr] at h10
          refine beq_eq_false_iff_ne.mpr (fun he => h10 ?_)
          subst he
          rfl
        rw [hcr]
        have htk : (c0 :: rest).take 96 = c0 :: rest.take 95 := by
          rfl
        rw [htk]
        have hcm : c0 ∈ trimWhile (fun c => c == '-') (c0 :: rest.take 95) :=
          mem_trimWhile_of_not _ _ c0 (List.mem_cons_self _ _) hc0
        refine ⟨List.ne_nil_of_mem hcm, ?_, ?_, ?_, ?_, ?_⟩
        · intro c hc
          have h5 := trimWhile_mem _ _ c hc
          have h6 : c ∈ c0 :: rest := by
            rcases List.mem_cons.mp h5 with rfl | h7
            · exact List.mem_cons_self _ _
            · exact List.mem_cons_of_mem _ (List.take_subset 95 rest h7)
          rw [← hcr] at h6
          exact hch4 c h6
        · intro hc
          have := trimWhile_head_not _ _ '-' hc
          simp at this
        · intro hc
          have := trimWhile_getLast_not _ _ '-' hc
          simp at this
        · have hndcr : noDoubleDash (c0 :: rest.take 95) = true := by
            have h7 : noDoubleDash (c0 :: rest) = true := by rwa [hcr] at hnd4
            have h8 := List.take_append_drop 96 (c0 :: rest)
            rw [htk] at h8
            exact noDD_append_left _ _ (by rw [h8]; exact h7)
          exact trimWhile_noDD _ _ hndcr
        · have := trimWhile_length_le (fun c => c == '-') (c0 :: rest.take 95)
          have h9 : (c0 :: rest.take 95).length ≤ 96 := by
            simp [List.length_take]
          omega
      · rw [if_neg h2]
        exact Or.inr ⟨hne4, hch4, hh4, hl4, hnd4, by omega⟩

/-- C8: for every input base name, the derived slug is non-empty, consists
only of characters in the class a-z, 0-9 or dash (so it matches the
anchored one-or-more regex over that class), is at most 96 characters, has
no leading or trailing hyphen, and equals the fixed literal "service" when
the input reduces to nothing (whitespace input, or an intermediate result
that trims away entirely). -/
theorem c8_slug_shape (l : List Char) :
    getSlugList l ≠ []
    ∧ (∀ c ∈ getSlugList l, isLowerAlnum c = true ∨ c = '-')
    ∧ (getSlugList l).length ≤ 96
    ∧ (getSlugList l).head? ≠ some '-'
    ∧ (getSlugList l).getLast? ≠ some '-'
    ∧ (wsEmpty l = true → getSlugList l = "service".toList)
    ∧ (wsEmpty (trimWhile (fun c => c == '-')
          (replaceRuns (fun c => c == '-') '-'
            (replaceRuns (fun c => !(isLowerAlnum c)) '-' (l.map lowerChar)))) = true
        → getSlugList l = "service".toList) := by
  have hfb1 : wsEmpty l = true → getSlugList l = "service".toList := by
    intro h0
    rw [getSlugList, if_pos h0]
  have hfb2 : wsEmpty (trimWhile (fun c => c == '-')
        (replaceRuns (fun c => c == '-') '-'
          (replaceRuns (fun c => !(isLowerAlnum c)) '-' (l.map lowerChar)))) = true
      → getSlugList l = "service".toList := by
    intro h4
    by_cases h0 : wsEmpty l = true
    · rw [getSlugList, if_pos h0]
    · simp only [getSlugList]
      rw [if_neg h0, if_pos h4, if_neg (by decide : ¬(96 < ("service".toList).length))]
  rcases getSlug_shape l with heq | hgood
  · rw [heq]
    exact ⟨by decide, by decide, by decide, by decide, by decide, fun _ => rfl, fun _ => rfl⟩
  · obtain ⟨hne, hch, hh, hl, hnd, hlen⟩ := hgood
    exact ⟨hne, hch, hlen, hh, hl, hfb1, hfb2⟩

/-- C8 witness: the slug-shape theorem applied at the empty input (which
reduces to nothing and falls back to "service") and at the spec's example
input. -/
theorem c8_witness :
    wsEmpty ("".toList) = true
    ∧ getSlugList ("".toList) = "service".toList
    ∧ getSlugList ("Sunday AM — 3/10!!".toList) ≠ [] := by
  refine ⟨by decide, (c8_slug_shape ("".toList)).2.2.2.2.2.1 (by decide),
    (c8_slug_shape ("Sunday AM — 3/10!!".toList)).1⟩

/-- C10: the slug derivation is idempotent — applying Get-Slug to its own
output returns that output unchanged. -/
theorem c10_slug_idempotent (l : List Char) :
    getSlugList (getSlugList l) = getSlugList l := by
  have hserv : GoodSlugP ("service".toList) :=
    ⟨by decide, by decide, by decide, by decide, by decide, by decide⟩
  rcases getSlug_shape l with heq | hgood
  · rw [heq, getSlug_id _ hserv]
  · rw [getSlug_id _ hgood]

theorem bufOf_append_singleton (g : List (List Char)) (s : List Char) :
    bufOf (g ++ [s]) = bufExtend (bufOf g) s := by
  unfold bufOf
  rw [List.foldl_append]
  rfl

theorem wsEmpty_trimWs_false (s : List Char) (h : wsEmpty s = false) :
    wsEmpty (trimWs s) = false := by
  unfold wsEmpty at h ⊢
  rcases List.all_eq_false.mp h with ⟨c, hc, hpc⟩
  rw [Bool.not_eq_true] at hpc
  exact List.all_eq_false.mpr ⟨c, mem_trimWhile_of_not isWsChar s c hc hpc, by simp [hpc]⟩

theorem wsEmpty_bufExtend_false (buf s : List Char) (h : wsEmpty s = false) :
    wsEmpty (bufExtend buf s) = false := by
  unfold bufExtend
  split
  · exact wsEmpty_trimWs_false s h
  · have ht := wsEmpty_trimWs_false s h
    unfold wsEmpty at ht ⊢
    rcases List.all_eq_false.mp ht with ⟨c, hc, hpc⟩
    exact List.all_eq_false.mpr ⟨c, by
      rw [List.mem_append]
      exact Or.inr (List.mem_cons_of_mem _ hc), hpc⟩

theorem bufOf_nonWs (g : List (List Char)) (hg : g ≠ [])
    (hall : ∀ s ∈ g, wsEmpty s = false) : wsEmpty (bufOf g) = false := by
  induction g using List.reverseRecOn with
  | nil => exact absurd rfl hg
  | append_singleton h s ih =>
    rw [bufOf_append_singleton]
    exact wsEmpty_bufExtend_false _ s (hall s (List.mem_append_right h (List.mem_cons_self s [])))

theorem bufOf_dropLast_le (g : List (List Char))
    (hall : ∀ s ∈ g, wsEmpty s = false) :
    (bufOf g.dropLast).length ≤ (bufOf g).length := by
  induction g using List.reverseRecOn with
  | nil => simp
  | append_singleton h s ih =>
    rw [List.dropLast_concat, bufOf_append_singleton]
    unfold bufExtend
    split
    · rename_i hws
      by_cases hh : h = []
      · subst hh
        simp [bufOf]
      · exact absurd hws (by
          simp [bufOf_nonWs h hh (fun t ht => hall t (List.mem_append_left _ ht))])
    · rw [List.length_append]
      omega

theorem packGo_spec :
    ∀ (ss : List (List Char)) (g : List (List Char)) (acc : List (List Char)),
      (bufOf g).length < 700 →
      (∀ s ∈ g, wsEmpty s = false) →
      ∃ groups : List (List (List Char)),
        packGo ss (bufOf g) acc = acc ++ groups.map (fun h => trimWs (bufOf h))
        ∧ g ++ ss.filter (fun s => !(wsEmpty s)) = groups.flatten
        ∧ ∀ h ∈ groups, h ≠ [] ∧ (∀ s ∈ h, wsEmpty s = false)
            ∧ (bufOf h.dropLast).length < 700 := by
  intro ss
  induction ss with
  | nil =>
    intro g acc hlen hall
    by_cases hg : g = []
    · subst hg
      refine ⟨[], ?_, by simp, by simp⟩
      simp [packGo, bufOf, wsEmpty]
    · refine ⟨[g], ?_, by simp, ?_⟩
      · rw [packGo, if_neg (by simp [bufOf_nonWs g hg hall])]
        simp
      · intro h hh
        rw [List.mem_singleton] at hh
        subst hh
        exact ⟨hg, hall, lt_of_le_of_lt (bufOf_dropLast_le h hall) hlen⟩
  | cons s rest ih =>
    intro g acc hlen hall
    by_cases hws : wsEmpty s = true
    · simp only [packGo]
      rw [if_pos hws]
      rcases ih g acc hlen hall with ⟨groups, h1, h2, h3⟩
      refine ⟨groups, h1, ?_, h3⟩
      rwa [List.filter_cons_of_neg (by simp [hws])]
    · rw [Bool.not_eq_true] at hws
      simp only [packGo]
      rw [if_neg (by simp [hws])]
      rw [show (if wsEmpty (bufOf g) = true then trimWs s else bufOf g ++ ' ' :: trimWs s)
          = bufOf (g ++ [s]) from (bufOf_append_singleton g s).symm]
      have hall2 : ∀ t ∈ g ++ [s], wsEmpty t = false := by
        intro t ht
        rcases List.mem_append.mp ht with ht | ht
        · exact hall t ht
        · rw [List.mem_singleton] at ht
          subst ht
          exact hws
      by_cases hcap : 700 ≤ (bufOf (g ++ [s])).length
      · rw [if_pos hcap]
        rcases ih [] (acc ++ [trimWs (bufOf (g ++ [s]))]) (by simp [bufOf]) (by simp) with
          ⟨groups, h1, h2, h3⟩
        refine ⟨(g ++ [s]) :: groups, ?_, ?_, ?_⟩
        · rw [show packGo rest [] (acc ++ [trimWs (bufOf (g ++ [s]))])
              = packGo rest (bufOf []) (acc ++ [trimWs (bufOf (g ++ [s]))]) from rfl, h1]
          simp [List.append_assoc]
        · rw [List.filter_cons_of_pos (by simp [hws]), List.flatten_cons, ← h2]
          simp
        · intro h hh
          rcases List.mem_cons.mp hh with rfl | hh
          · exact ⟨by simp, hall2, by rw [List.dropLast_concat]; exact hlen⟩
          · exact h3 h hh
      · rw [if_neg hcap]
        rcases ih (g ++ [s]) acc (by omega) hall2 with ⟨groups, h1, h2, h3⟩
        refine ⟨groups, h1, ?_, h3⟩
        rw [List.filter_cons_of_pos (by simp [hws])]
        rw [show g ++ s :: List.filter (fun s => !(wsEmpty s)) rest
            = (g ++ [s]) ++ List.filter (fun s => !(wsEmpty s)) rest by simp, h2]

/-- C5 (amended): the reflowed clean document's paragraphs are exactly a
partition of the non-whitespace sentence pieces of the
whitespace-normalized text into consecutive groups, each paragraph
space-joining the whole sentences of its group (so no paragraph ever
splits inside a sentence); the loop flushes only once the buffer has
reached 700 characters, so the cap guarantee is: in every paragraph, the
packed prefix excluding the paragraph's final sentence is shorter than the
700-character cap — a paragraph exceeds the cap only by its final
sentence. -/
theorem c5_reflow_structure (raw : List Char) :
    ∃ groups : List (List (List Char)),
      (sentencesOf raw).filter (fun s => !(wsEmpty s)) = groups.flatten
      ∧ buildCleanParagraphs raw = groups.map (fun h => trimWs (bufOf h))
      ∧ ∀ h ∈ groups, h ≠ [] ∧ (∀ s ∈ h, wsEmpty s = false)
          ∧ (bufOf h.dropLast).length < 700 := by
  rcases packGo_spec (sentencesOf raw) [] [] (by simp [bufOf]) (by simp) with
    ⟨groups, h1, h2, h3⟩
  refine ⟨groups, by simpa using h2, ?_, h3⟩
  unfold buildCleanParagraphs
  rw [show packGo (sentencesOf raw) [] []
      = packGo (sentencesOf raw) (bufOf []) [] from rfl, h1]
  simp

/-- C5 witness: the reflow-structure theorem applied at a concrete
three-sentence input. -/
theorem c5_witness :
    ∃ groups : List (List (List Char)),
      (sentencesOf ("Hello there. How are you? fine".toList)).filter
          (fun s => !(wsEmpty s)) = groups.flatten
      ∧ buildCleanParagraphs ("Hello there. How are you? fine".toList)
          = groups.map (fun h => trimWs (bufOf h))
      ∧ ∀ h ∈ groups, h ≠ [] ∧ (∀ s ∈ h, wsEmpty s = false)
          ∧ (bufOf h.dropLast).length < 700 :=
  c5_reflow_structure ("Hello there. How are you? fine".toList)

set_option maxRecDepth 10000

/-- C5 counterexample: two 400-character sentences (each well under the
700 cap) are packed into a single 801-character paragraph, refuting
"every paragraph's length is at most the cap except when a single sentence
alone exceeds the cap". -/
theorem c5_counterexample :
    ((sentencesOf ((List.replicate 399 'a' ++ ['.']) ++ ' ' :: (List.replicate 399 'a' ++ ['.']))).map
        List.length = [400, 400])
    ∧ ((buildCleanParagraphs ((List.replicate 399 'a' ++ ['.']) ++ ' ' :: (List.replicate 399 'a' ++ ['.']))).map
        List.length = [801])
    ∧ (400 ≤ 700) ∧ (700 < 801) := by
  refine ⟨?_, ?_, by decide, by decide⟩ <;> rfl

end ChurchTranscriber
